import Mathlib

/-!
Verification of the core of the `tjh-mqtt` MQTT 3.1.1 client library.

The Rust source is shallowly embedded: UTF-8 strings (`&str`) are modelled
as lists of bytes (`List Nat`, each element `< 256`), `HashMap`s as
association lists, `Instant`s as natural numbers, and the channel / oneshot
handles that the client state is generic over stay as type parameters.
Fallible operations return `Except`; panics (`panic!`, `unimplemented!`)
are modelled by an explicit outcome constructor.
-/

/-- Bytes of a UTF-8 string (`&str` / `String` in the source). -/
abbrev Str := List Nat

/-- A byte buffer (`Bytes` / `BytesMut` in the source). -/
abbrev Bytes := List Nat

/-- Quality of service level (qos.rs). `as u8` gives 0, 1, 2. -/
inductive QoS
  | AtMostOnce
  | AtLeastOnce
  | ExactlyOnce
deriving DecidableEq, Repr

/-- Numeric value of a `QoS` (the Rust `as u8` cast). -/
def QoS.toNat : QoS → Nat
  | .AtMostOnce => 0
  | .AtLeastOnce => 1
  | .ExactlyOnce => 2

/-- Conversion `u8 -> QoS` (`TryFrom<u8> for QoS`); fails with `InvalidQoS`. -/
def QoS.fromNat (n : Nat) : Option QoS :=
  match n with
  | 0 => some .AtMostOnce
  | 1 => some .AtLeastOnce
  | 2 => some .ExactlyOnce
  | _ => none

/-- Static messages carried by `ParseError::MalformedPacket` (packets.rs). -/
inductive PacketMsg
  | invalidProtocolName
  | connAckLength
  | connAckFlags
  | qos0Duplicate
  | invalidSubAckCode
  | idPacketLength
  | nulPacketLength
deriving DecidableEq, Repr

/-- The codec error taxonomy, `packets::ParseError` (packets.rs). -/
inductive ParseError
  | Incomplete
  | InvalidQoS
  | InvalidFilter
  | InvalidTopic
  | InvalidHeader
  | ZeroPacketId
  | MalformedLength
  | MalformedPacket (msg : PacketMsg)
  | Utf8Error
deriving DecidableEq, Repr

/-- The serializer error, `serde::WriteError` (serde.rs). -/
inductive WriteError
  | writeError
deriving DecidableEq, Repr

/-!  ## serde.rs: cursor-based readers and buffer writers

A read cursor is modelled as the list of not-yet-consumed bytes; each
`get*` returns the value and the remaining bytes.  The write side appends
to a byte list; `BytesMut` grows on demand so `require_mut` never fails,
while the explicit range checks of `put_str` and `put_var` are kept.
-/

/-- `serde::get_u8`. -/
def getU8 (src : List Nat) : Except ParseError (Nat × List Nat) :=
  match src with
  | [] => .error .Incomplete
  | b :: rest => .ok (b % 256, rest)

/-- `serde::get_u16` (big-endian). -/
def getU16 (src : List Nat) : Except ParseError (Nat × List Nat) :=
  match src with
  | a :: b :: rest => .ok ((a % 256) * 256 + b % 256, rest)
  | _ => .error .Incomplete

/-- `serde::get_slice`. -/
def getSlice (src : List Nat) (len : Nat) : Except ParseError (List Nat × List Nat) :=
  if src.length < len then .error .Incomplete
  else .ok (src.take len, src.drop len)

/-- `serde::get_id`: a 2-byte packet id that must be non-zero. -/
def getId (src : List Nat) : Except ParseError (Nat × List Nat) := do
  let (id, rest) ← getU16 src
  if id = 0 then .error .ZeroPacketId else .ok (id, rest)

/-- One step of UTF-8 validation: how many bytes the sequence starting at
the head consumes, or `none` if it is not valid UTF-8 (the checks of
`std::str::from_utf8`, including overlong and surrogate rejection). -/
def utf8Step (src : List Nat) : Option Nat :=
  match src with
  | [] => none
  | b :: rest =>
    if b < 0x80 then some 1
    else if b < 0xc2 then none
    else if b < 0xe0 then
      match rest with
      | c1 :: _ => if 0x80 ≤ c1 ∧ c1 < 0xc0 then some 2 else none
      | _ => none
    else if b < 0xf0 then
      match rest with
      | c1 :: c2 :: _ =>
        let lo := if b = 0xe0 then 0xa0 else 0x80
        let hi := if b = 0xed then 0xa0 else 0xc0
        if lo ≤ c1 ∧ c1 < hi ∧ 0x80 ≤ c2 ∧ c2 < 0xc0 then some 3 else none
      | _ => none
    else if b < 0xf5 then
      match rest with
      | c1 :: c2 :: c3 :: _ =>
        let lo := if b = 0xf0 then 0x90 else 0x80
        let hi := if b = 0xf4 then 0x90 else 0xc0
        if lo ≤ c1 ∧ c1 < hi ∧ 0x80 ≤ c2 ∧ c2 < 0xc0 ∧ 0x80 ≤ c3 ∧ c3 < 0xc0
        then some 4 else none
      | _ => none
    else none

/-- Fuelled validation walk: each valid step consumes the head byte plus
`n - 1` continuation bytes, so fuel equal to the list length is always
enough (the fuel-exhausted base case is unreachable then). -/
def utf8ValidFuel : Nat → List Nat → Bool
  | 0, l => l.isEmpty
  | fuel + 1, l =>
    match l with
    | [] => true
    | b :: rest =>
      match utf8Step (b :: rest) with
      | none => false
      | some n => utf8ValidFuel fuel (rest.drop (n - 1))

/-- UTF-8 validity of a byte list (`std::str::from_utf8(..).is_ok()`). -/
def utf8Valid (l : List Nat) : Bool := utf8ValidFuel l.length l

/-- `serde::get_str`: 2-byte length prefix, then that many UTF-8 bytes. -/
def getStr (src : List Nat) : Except ParseError (Str × List Nat) := do
  let (len, rest) ← getU16 src
  let (s, rest) ← getSlice rest len
  if utf8Valid s then .ok (s, rest) else .error .Utf8Error

/-- `serde::get_var`: the base-128 variable-length remaining length,
at most 4 bytes (a fifth continuation is `MalformedLength`). -/
def getVar (src : List Nat) : Except ParseError (Nat × List Nat) := do
  let (b0, rest) ← getU8 src
  if b0 % 0x80 = b0 then .ok (b0, rest) else
  let (b1, rest) ← getU8 rest
  if b1 % 0x80 = b1 then .ok (b0 % 0x80 + b1 * 0x80, rest) else
  let (b2, rest) ← getU8 rest
  if b2 % 0x80 = b2 then .ok (b0 % 0x80 + (b1 % 0x80) * 0x80 + b2 * 0x4000, rest) else
  let (b3, rest) ← getU8 rest
  if b3 % 0x80 = b3 then
    .ok (b0 % 0x80 + (b1 % 0x80) * 0x80 + (b2 % 0x80) * 0x4000 + b3 * 0x200000, rest)
  else .error .MalformedLength

/-- `serde::put_u8`. -/
def putU8 (dst : Bytes) (v : Nat) : Bytes := dst ++ [v % 256]

/-- `serde::put_u16` (big-endian). -/
def putU16 (dst : Bytes) (v : Nat) : Bytes := dst ++ [v / 256 % 256, v % 256]

/-- `serde::put_slice`. -/
def putSlice (dst : Bytes) (s : List Nat) : Bytes := dst ++ s

/-- `serde::put_str`: rejects strings longer than `u16::MAX` bytes, then
writes the 2-byte length prefix and the bytes. -/
def putStr (dst : Bytes) (s : Str) : Except WriteError Bytes :=
  if s.length > 0xffff then .error .writeError
  else .ok (putSlice (putU16 dst s.length) s)

/-- Fuelled form of the `put_var` encoding loop: write the low 7 bits
with a continuation flag while the quotient is nonzero.  Each iteration
divides the value by 128, so fuel equal to the value itself is always
enough and the fuel-exhausted base case is unreachable. -/
def varBytesFuel : Nat → Nat → List Nat
  | 0, v => [v % 0x80]
  | fuel + 1, v =>
    if v < 0x80 then [v] else (v % 0x80 + 0x80) :: varBytesFuel fuel (v / 0x80)

/-- The byte sequence produced by the `put_var` encoding loop. -/
def varBytes (v : Nat) : List Nat := varBytesFuel v v

/-- `serde::put_var`: rejects values above 268 435 455. -/
def putVar (dst : Bytes) (v : Nat) : Except WriteError Bytes :=
  if v > 268435455 then .error .writeError else .ok (dst ++ varBytes v)

/-!  ## topic.rs and filter.rs

Topics and filters are byte strings; levels are obtained by splitting on
the byte of the `/` character (0x2f).  The wildcard characters `+` and `#`
are the bytes 0x2b and 0x23; both are single-byte in UTF-8, so the
character-level checks of the source coincide with byte-level checks.
-/

/-- The single level separator byte, the character `/`. -/
def slashByte : Nat := 0x2f

/-- The single-level wildcard byte, the character `+`. -/
def plusByte : Nat := 0x2b

/-- The multi-level wildcard byte, the character `#`. -/
def hashByte : Nat := 0x23

/-- `str::split('/')`, as used by `Topic::levels` and `Filter::levels`.
Splitting the empty string yields one empty level, like Rust. -/
def splitLevels : Str → List Str
  | [] => [[]]
  | b :: rest =>
    if b = slashByte then [] :: splitLevels rest
    else
      match splitLevels rest with
      | l :: ls => (b :: l) :: ls
      | [] => [[b]]

/-- The error taxonomy of `Topic::new` (topic.rs). -/
inductive InvalidTopic
  | Empty
  | TooLong
  | InvalidCharacter
deriving DecidableEq, Repr

/-- `Topic::new`: non-empty, at most 65 535 bytes, no wildcard characters. -/
def Topic.new (s : Str) : Except InvalidTopic Unit :=
  if s.isEmpty then .error .Empty
  else if s.length > 0xffff then .error .TooLong
  else if s.any (fun b => b = plusByte ∨ b = hashByte) then .error .InvalidCharacter
  else .ok ()

/-- The error taxonomy of `Filter::new` (filter.rs). -/
inductive InvalidFilter
  | Empty
  | TooLong
  | InvalidLevel
  | MultipleMultiLevelWildcards
  | NonTerminalMultiLevelWildcard
deriving DecidableEq, Repr

/-- The per-level loop of `Filter::new`: walk the enumerated levels
tracking the position of a multi-level wildcard, rejecting levels that mix
a wildcard with other bytes and repeated multi-level wildcards.  Returns
the recorded wildcard position and the final `total_levels`. -/
def Filter.scanLevels :
    List (Nat × Str) → Option Nat → Nat → Except InvalidFilter (Option Nat × Nat)
  | [], mp, total => .ok (mp, total)
  | (pos, l) :: rest, mp, _ =>
    if (l.any fun b => b = plusByte ∨ b = hashByte) ∧ l.length > 1 then
      .error .InvalidLevel
    else if l.contains hashByte ∧ mp.isSome then
      .error .MultipleMultiLevelWildcards
    else
      Filter.scanLevels rest (if l.contains hashByte then some pos else mp) pos

/-- `Filter::new`: non-empty, at most 65 535 bytes, well-placed wildcards. -/
def Filter.new (s : Str) : Except InvalidFilter Unit :=
  if s.isEmpty then .error .Empty
  else if s.length > 0xffff then .error .TooLong
  else
    match Filter.scanLevels (splitLevels s).enum none 0 with
    | .error e => .error e
    | .ok (some p, total) =>
      if p ≠ total then .error .NonTerminalMultiLevelWildcard else .ok ()
    | .ok (none, _) => .ok ()

/-- The match profile returned by `Filter::matches_topic` (filter.rs). -/
structure Matches where
  exact : Nat
  wildcard : Nat
  multi_wildcard : Nat
deriving DecidableEq, Repr

/-- The default (all-zero) match profile. -/
def Matches.zero : Matches := ⟨0, 0, 0⟩

/-- `Matches::score`. -/
def Matches.score (m : Matches) : Nat :=
  m.exact * 100 + m.wildcard * 10 + m.multi_wildcard

/-- The level-walking loop of `Filter::matches_topic`: `#` consumes every
remaining topic level (and fails on zero of them), `+` consumes exactly
one, any other filter level must equal the next topic level, and after the
filter is exhausted the topic must be exhausted too. -/
def matchLevels (acc : Matches) : List Str → List Str → Option Matches
  | [], ts => if ts.isEmpty then some acc else none
  | f :: fs, ts =>
    if f = [hashByte] then
      if ts.length ≠ 0 then some { acc with multi_wildcard := ts.length } else none
    else if f = [plusByte] then
      match ts with
      | [] => none
      | _ :: ts2 => matchLevels { acc with wildcard := acc.wildcard + 1 } fs ts2
    else
      match ts with
      | [] => none
      | t :: ts2 =>
        if t = f then matchLevels { acc with exact := acc.exact + 1 } fs ts2 else none

/-- `Filter::matches_topic`. -/
def Filter.matchesTopic (f : Str) (t : Str) : Option Matches :=
  matchLevels Matches.zero (splitLevels f) (splitLevels t)

example : Filter.matchesTopic [0x61, 0x2f, 0x23] [0x61, 0x2f, 0x62] = some ⟨1, 0, 1⟩ := by
  decide

example : Filter.matchesTopic [0x61, 0x2f, 0x23] [0x61] = none := by decide

example : Filter.matchesTopic [0x2b, 0x2f, 0x2b, 0x2f, 0x63, 0x2f, 0x23]
    [0x2f, 0x2f, 0x63, 0x2f, 0x2f] = some ⟨1, 2, 2⟩ := by decide

/-!  ## packets.rs: packet types, serialization, parsing -/

/-- The bytes of the protocol name string, `"MQTT"`. -/
def protocolNameMQTT : Str := [0x4d, 0x51, 0x54, 0x54]

/-- `misc::Will`: last will and testament carried in a Connect packet. -/
structure Will where
  topic : Str
  payload : Bytes
  qos : QoS
  retain : Bool
deriving DecidableEq, Repr

/-- `misc::Credentials`: username plus optional password. -/
structure Credentials where
  username : Str
  password : Option Str
deriving DecidableEq, Repr

/-- `packets::Connect`. -/
structure Connect where
  protocol_name : Str
  protocol_level : Nat
  client_id : Str
  keep_alive : Nat
  clean_session : Bool
  will : Option Will
  credentials : Option Credentials
deriving DecidableEq, Repr

/-- `Connect::flags`: clean-session at 0x02, will-present at 0x04,
will-qos at bits 3 and 4, will-retain at 0x20; for credentials it sets
0x80, plus 0x40 when a password is present. -/
def Connect.flags (c : Connect) : Nat :=
  (if c.clean_session then 0x02 else 0) |||
    (match c.will with
      | some w => 0x04 ||| (w.qos.toNat <<< 3) ||| (if w.retain then 0x20 else 0)
      | none => 0) |||
    (match c.credentials with
      | some cr => 0x80 ||| (if cr.password.isSome then 0x40 else 0)
      | none => 0)

/-- `Connect::payload_len`: the remaining length the serializer declares.
Note that it counts 2 bytes of length prefix for the will payload. -/
def Connect.payloadLen (c : Connect) : Nat :=
  2 + c.protocol_name.length + 4 + (2 + c.client_id.length)
    + (match c.will with
        | some w => 2 + w.topic.length + 2 + w.payload.length
        | none => 0)
    + (match c.credentials with
        | some cr =>
          2 + cr.username.length
            + (match cr.password with | some p => 2 + p.length | none => 0)
        | none => 0)

/-- `Connect::serialize_to_bytes`.  The will payload is written with
`put_slice`, that is, without a length prefix. -/
def Connect.serializeToBytes (c : Connect) (dst : Bytes) : Except WriteError Bytes := do
  let dst := putU8 dst 0x10
  let dst ← putVar dst c.payloadLen
  let dst ← putStr dst c.protocol_name
  let dst := putU8 dst c.protocol_level
  let dst := putU8 dst c.flags
  let dst := putU16 dst c.keep_alive
  let dst ← putStr dst c.client_id
  let dst ←
    match c.will with
    | some w => do
      let dst ← putStr dst w.topic
      pure (putSlice dst w.payload)
    | none => pure dst
  let dst ←
    match c.credentials with
    | some cr => do
      let dst ← putStr dst cr.username
      match cr.password with
      | some p => putStr dst p
      | none => pure dst
    | none => pure dst
  pure dst

/-- `Connect::parse`.  Reads the flags byte and then the optional will and
credentials; note that it tests 0x40 for credentials-present and 0x80 for
password-present. -/
def Connect.parse (payload : Str) : Except ParseError Connect := do
  let (pname, rest) ← getStr payload
  if pname ≠ protocolNameMQTT then
    .error (.MalformedPacket .invalidProtocolName)
  else do
    let (protocol_level, rest) ← getU8 rest
    let (flags, rest) ← getU8 rest
    let (keep_alive, rest) ← getU16 rest
    let (client_id, rest) ← getStr rest
    let clean_session := flags &&& 0x02 = 0x02
    let (will, rest) ←
      if flags &&& 0x04 = 0x04 then do
        let (topic, rest) ← getStr rest
        let (len, rest) ← getU16 rest
        let (wpayload, rest) ← getSlice rest len
        let qos ←
          match QoS.fromNat ((flags &&& 0x18) >>> 3) with
          | some q => pure q
          | none => .error .InvalidQoS
        let retain := flags &&& 0x20 = 0x20
        match Topic.new topic with
        | .error _ => .error .InvalidTopic
        | .ok () =>
          pure (some (Will.mk topic wpayload qos retain), rest)
      else
        pure (none, rest)
    let (credentials, rest) ←
      if flags &&& 0x40 = 0x40 then do
        let (username, rest) ← getStr rest
        if flags &&& 0x80 = 0x80 then do
          let (password, rest) ← getStr rest
          pure (some (Credentials.mk username (some password)), rest)
        else
          pure (some (Credentials.mk username none), rest)
      else
        pure (none, rest)
    let _ := rest
    pure (Connect.mk pname protocol_level client_id keep_alive clean_session
      will credentials)

/-- `packets::ConnAck`. -/
structure ConnAck where
  session_present : Bool
  code : Nat
deriving DecidableEq, Repr

/-- `ConnAck::parse`: length must be 2, the upper 7 bits of the first byte
must be zero, bit 0 is session-present, the second byte is the code. -/
def ConnAck.parse (payload : Str) : Except ParseError ConnAck := do
  if payload.length ≠ 2 then
    .error (.MalformedPacket .connAckLength)
  else do
    let (flags, rest) ← getU8 payload
    let (code, _) ← getU8 rest
    if flags &&& 0xe0 ≠ 0 then
      .error (.MalformedPacket .connAckFlags)
    else
      pure (ConnAck.mk (flags &&& 0x01 = 0x01) code)

/-- `ConnAck::serialize_to_bytes`. -/
def ConnAck.serializeToBytes (c : ConnAck) (dst : Bytes) : Except WriteError Bytes := do
  let dst := putU8 dst 0x20
  let dst ← putVar dst 2
  let dst := putU8 dst (if c.session_present then 0x01 else 0x00)
  pure (putU8 dst c.code)

/-- `packets::Frame::parse`: strip the header byte and the remaining
length; everything after the length is the payload. -/
structure Frame where
  header : Nat
  payload : Bytes
deriving DecidableEq, Repr

/-- `Frame::parse` on a full packet byte buffer. -/
def Frame.parse (packet : Bytes) : Except ParseError Frame := do
  let (header, rest) ← getU8 packet
  let (_, rest) ← getVar rest
  pure (Frame.mk header rest)

/-- `packets::Publish`, one constructor per QoS level. -/
inductive Publish
  | AtMostOnce (retain : Bool) (topic : Str) (payload : Bytes)
  | AtLeastOnce (id : Nat) (retain : Bool) (duplicate : Bool) (topic : Str) (payload : Bytes)
  | ExactlyOnce (id : Nat) (retain : Bool) (duplicate : Bool) (topic : Str) (payload : Bytes)
deriving DecidableEq, Repr

/-- `Publish::serialize_to_bytes`: header flags are retain (bit 0),
qos shifted left one (bits 1-2), duplicate (bit 3). -/
def Publish.serializeToBytes (p : Publish) (dst : Bytes) : Except WriteError Bytes := do
  match p with
  | .AtMostOnce retain topic payload => do
    let flags := (if retain then 0x01 else 0) ||| (QoS.AtMostOnce.toNat <<< 1)
    let dst := putU8 dst (0x30 ||| flags)
    let dst ← putVar dst (2 + topic.length + payload.length)
    let dst ← putStr dst topic
    pure (putSlice dst payload)
  | .AtLeastOnce id retain duplicate topic payload => do
    let flags := (if retain then 0x01 else 0) ||| (if duplicate then 0x08 else 0)
      ||| (QoS.AtLeastOnce.toNat <<< 1)
    let dst := putU8 dst (0x30 ||| flags)
    let dst ← putVar dst (4 + topic.length + payload.length)
    let dst ← putStr dst topic
    let dst := putU16 dst id
    pure (putSlice dst payload)
  | .ExactlyOnce id retain duplicate topic payload => do
    let flags := (if retain then 0x01 else 0) ||| (if duplicate then 0x08 else 0)
      ||| (QoS.ExactlyOnce.toNat <<< 1)
    let dst := putU8 dst (0x30 ||| flags)
    let dst ← putVar dst (4 + topic.length + payload.length)
    let dst ← putStr dst topic
    let dst := putU16 dst id
    pure (putSlice dst payload)

/-- Serialization of the id-only packets produced by the `id_packet!`
macro (PubAck 0x40, PubRec 0x50, PubRel 0x62, PubComp 0x70,
UnsubAck 0xb0): header, remaining length 2, the 2-byte id. -/
def idPacketBytes (header : Nat) (id : Nat) (dst : Bytes) : Bytes :=
  putU16 (putU8 dst header ++ varBytes 2) id

/-- Serialization of the empty packets produced by the `nul_packet!`
macro (PingReq 0xc0, PingResp 0xd0, Disconnect 0xe0). -/
def nulPacketBytes (header : Nat) (dst : Bytes) : Bytes :=
  putU8 dst header ++ varBytes 0

/-- `packets::Subscribe`. -/
structure Subscribe where
  id : Nat
  filters : List (Str × QoS)
deriving DecidableEq, Repr

/-- `Subscribe::serialize_to_bytes` (header 0x82). -/
def Subscribe.serializeToBytes (p : Subscribe) (dst : Bytes) : Except WriteError Bytes := do
  let dst := putU8 dst 0x82
  let len := 2 + p.filters.foldl (fun acc fq => acc + 3 + fq.1.length) 0
  let dst ← putVar dst len
  let dst := putU16 dst p.id
  let dst ← p.filters.foldlM (fun dst fq => do
    let dst ← putStr dst fq.1
    pure (putU8 dst fq.2.toNat)) dst
  pure dst

/-- `packets::SubAck`: per-filter results, `none` for the 0x80 failure
code, `some qos` for a granted quality of service. -/
structure SubAck where
  id : Nat
  result : List (Option QoS)
deriving DecidableEq, Repr

/-- `packets::Unsubscribe`. -/
structure Unsubscribe where
  id : Nat
  filters : List Str
deriving DecidableEq, Repr

/-- `Unsubscribe::serialize_to_bytes` (header 0xa2). -/
def Unsubscribe.serializeToBytes (p : Unsubscribe) (dst : Bytes) : Except WriteError Bytes := do
  let dst := putU8 dst 0xa2
  let len := 2 + p.filters.foldl (fun acc f => acc + 2 + f.length) 0
  let dst ← putVar dst len
  let dst := putU16 dst p.id
  let dst ← p.filters.foldlM (fun dst f => putStr dst f) dst
  pure dst

/-!  ## clients/state.rs: the session state machine

`HashMap<PacketId, V>` is modelled as an association list with distinct
keys: `lookup` finds the entry, `remove` deletes it, `insert` replaces.
The channel sender (`PubTx`), the oneshot completion handles (`PubResp`,
`SubResp`, `UnSubResp`) stay abstract type parameters, exactly as in the
generic `ClientState` of the source.  `Instant` is a natural number.
-/

/-- Lookup in a `HashMap` modelled as an association list. -/
def mapLookup {α : Type} (k : Nat) : List (Nat × α) → Option α
  | [] => none
  | (k2, v) :: rest => if k2 = k then some v else mapLookup k rest

/-- `HashMap::remove` (drops the entry with the given key). -/
def mapRemove {α : Type} (k : Nat) (m : List (Nat × α)) : List (Nat × α) :=
  m.filter (fun e => e.1 ≠ k)

/-- `HashMap::insert` (replaces any entry with the given key). -/
def mapInsert {α : Type} (k : Nat) (v : α) (m : List (Nat × α)) : List (Nat × α) :=
  (k, v) :: mapRemove k m

/-- `HashMap::contains_key`. -/
def mapContains {α : Type} (k : Nat) (m : List (Nat × α)) : Bool :=
  (mapLookup k m).isSome

/-- `clients::Message`: a delivered publication. -/
structure Message where
  topic : Str
  retain : Bool
  payload : Bytes
deriving DecidableEq, Repr

/-- `state::Subscription`: one active subscription entry. -/
structure Subscription (T : Type) where
  filter : Str
  qos : QoS
  channel : T
deriving DecidableEq, Repr

/-- `state::PublishState`: the in-flight state of an outgoing publish. -/
inductive PublishState (R : Type)
  | Ack (response : R)
  | Rec (response : R)
  | Comp (response : R)
deriving DecidableEq, Repr

/-- `state::SubscribeState`: a pending subscribe request. -/
structure SubscribeState (T R : Type) where
  filters : List (Subscription T)
  response : R
  expires : Nat
deriving DecidableEq, Repr

/-- `state::UnsubscribeState`: a pending unsubscribe request. -/
structure UnsubscribeState (R : Type) where
  filters : List Str
  response : R
  expires : Nat
deriving DecidableEq, Repr

/-- Static messages carried by `StateError::ProtocolError`. -/
inductive StateMsg
  | subAckLengthMismatch
  | pubRelUnknownId
deriving DecidableEq, Repr

/-- The fourteen packet types (`packet::PacketType`). -/
inductive PacketType
  | Connect | ConnAck | Publish | PubAck | PubRec | PubRel | PubComp
  | Subscribe | SubAck | Unsubscribe | UnsubAck | PingReq | PingResp | Disconnect
deriving DecidableEq, Repr

/-- `state::StateError`. -/
inductive StateError
  | Unsolicited (t : PacketType)
  | InvalidPacket
  | ProtocolError (m : StateMsg)
  | DeliveryFailure
  | HardDeliveryFailure
deriving DecidableEq, Repr

/-- `state::ClientState`, generic over the delivery channel and the three
oneshot response handle types. -/
structure ClientState (PubTx PubResp SubResp UnSubResp : Type) where
  active_subscriptions : List (Subscription PubTx)
  outgoing : Bytes
  incoming : List (Nat × Message)
  publish_state : List (Nat × PublishState PubResp)
  subscribe_state : List (Nat × SubscribeState PubTx SubResp)
  unsubscribe_state : List (Nat × UnsubscribeState UnSubResp)
  publish_packet_id : Nat
  subscribe_packet_id : Nat
  unsubscribe_packet_id : Nat
  connect : Bytes
  keep_alive : Nat
  pingreq_state : Option Nat

/-- `ClientState::default`: empty tables and all three packet-id counters
at `WrappingNonZeroU16::MAX`, that is 65 535. -/
def ClientState.default (PubTx PubResp SubResp UnSubResp : Type) :
    ClientState PubTx PubResp SubResp UnSubResp :=
  { active_subscriptions := []
    outgoing := []
    incoming := []
    publish_state := []
    subscribe_state := []
    unsubscribe_state := []
    publish_packet_id := 65535
    subscribe_packet_id := 65535
    unsubscribe_packet_id := 65535
    connect := []
    keep_alive := 0
    pingreq_state := none }

/-- `WrappingNonZeroU16::add_assign` with right-hand side 1:
`checked_add` overflows exactly at 65 535, falling back to
`NonZeroU16::MIN`, so the counter wraps from 65 535 to 1. -/
def wrappingAdd1 (c : Nat) : Nat :=
  if c + 1 > 65535 then 1 else c + 1

/-- The allocation loop shared by `generate_publish_id`,
`generate_subscribe_id` and `generate_unsubscribe_id`: repeatedly bump the
counter until its value is not a key of the in-flight table.  The source
loop is unbounded; it is modelled with explicit fuel, `none` meaning the
loop has not terminated within the given number of iterations. -/
def generateIdLoop {α : Type} (table : List (Nat × α)) : Nat → Nat → Option Nat
  | 0, _ => none
  | fuel + 1, c =>
    let c2 := wrappingAdd1 c
    if mapContains c2 table then generateIdLoop table fuel c2 else some c2

/-- Fuel sufficient for the allocation loop to visit every candidate id. -/
def idFuel : Nat := 65536

/-- `ClientState::generate_publish_id` (result and updated counter). -/
def ClientState.generatePublishId {A B C D : Type} (s : ClientState A B C D) :
    Option (Nat × ClientState A B C D) :=
  (generateIdLoop s.publish_state idFuel s.publish_packet_id).map
    (fun id => (id, { s with publish_packet_id := id }))

/-- `ClientState::generate_subscribe_id` (result and updated counter). -/
def ClientState.generateSubscribeId {A B C D : Type} (s : ClientState A B C D) :
    Option (Nat × ClientState A B C D) :=
  (generateIdLoop s.subscribe_state idFuel s.subscribe_packet_id).map
    (fun id => (id, { s with subscribe_packet_id := id }))

/-- `ClientState::generate_unsubscribe_id` (result and updated counter). -/
def ClientState.generateUnsubscribeId {A B C D : Type} (s : ClientState A B C D) :
    Option (Nat × ClientState A B C D) :=
  (generateIdLoop s.unsubscribe_state idFuel s.unsubscribe_packet_id).map
    (fun id => (id, { s with unsubscribe_packet_id := id }))

/-- `ClientState::expired`: the keep-alive check over the pending
ping / subscribe / unsubscribe records, comparing each recorded instant
against `Instant::now()` with `v > now`. -/
def ClientState.expired {A B C D : Type} (s : ClientState A B C D) (now : Nat) : Bool :=
  (match s.pingreq_state with
    | some v => decide (v > now)
    | none => false)
  || s.subscribe_state.any (fun e => decide (e.2.expires > now))
  || s.unsubscribe_state.any (fun e => decide (e.2.expires > now))

/-- `ClientState::pubrel`: remove and return the stored incoming QoS 2
message, `Unsolicited(PubRel)` if the id is unknown. -/
def ClientState.pubrel {A B C D : Type} (s : ClientState A B C D) (id : Nat) :
    ClientState A B C D × Except StateError Message :=
  match mapLookup id s.incoming with
  | none => (s, .error (.Unsolicited .PubRel))
  | some msg => ({ s with incoming := mapRemove id s.incoming }, .ok msg)

/-- `ClientState::puback`: complete an `Ack`-state publish; the source
removes the entry first and raises `Unsolicited(PubAck)` if it was missing
or in another state. -/
def ClientState.puback {A B C D : Type} (s : ClientState A B C D) (id : Nat) :
    ClientState A B C D × Except StateError B :=
  match mapLookup id s.publish_state with
  | some (.Ack response) =>
    ({ s with publish_state := mapRemove id s.publish_state }, .ok response)
  | _ =>
    ({ s with publish_state := mapRemove id s.publish_state },
      .error (.Unsolicited .PubAck))

/-- `ClientState::pubrec`: move a `Rec`-state publish to `Comp` and
enqueue a PubRel with the same id; otherwise `Unsolicited(PubRec)` (the
source still removes whatever entry was there). -/
def ClientState.pubrec {A B C D : Type} (s : ClientState A B C D) (id : Nat) :
    ClientState A B C D × Except StateError Unit :=
  match mapLookup id s.publish_state with
  | some (.Rec response) =>
    ({ s with
        publish_state :=
          mapInsert id (.Comp response) (mapRemove id s.publish_state)
        outgoing := idPacketBytes 0x62 id s.outgoing },
      .ok ())
  | _ =>
    ({ s with publish_state := mapRemove id s.publish_state },
      .error (.Unsolicited .PubRec))

/-- `ClientState::pubcomp`: complete a `Comp`-state publish; otherwise
`Unsolicited(PubComp)` (the source still removes whatever entry was
there). -/
def ClientState.pubcomp {A B C D : Type} (s : ClientState A B C D) (id : Nat) :
    ClientState A B C D × Except StateError B :=
  match mapLookup id s.publish_state with
  | some (.Comp response) =>
    ({ s with publish_state := mapRemove id s.publish_state }, .ok response)
  | _ =>
    ({ s with publish_state := mapRemove id s.publish_state },
      .error (.Unsolicited .PubComp))

/-- `ClientState::unsuback`: drop the pending unsubscribe record and
retain only the active subscriptions whose filter is not listed in it. -/
def ClientState.unsuback {A B C D : Type} (s : ClientState A B C D) (id : Nat) :
    ClientState A B C D × Except StateError D :=
  match mapLookup id s.unsubscribe_state with
  | none => (s, .error (.Unsolicited .UnsubAck))
  | some st =>
    ({ s with
        unsubscribe_state := mapRemove id s.unsubscribe_state
        active_subscriptions :=
          s.active_subscriptions.filter (fun sub => ¬ st.filters.contains sub.filter) },
      .ok st.response)

/-- Outcome of a state-machine operation that may allocate a packet id
and enqueue a serialized packet.  `panicked` models the `expect` inside
`ClientState::enqueue_packet`; `looping` models non-termination of the
unbounded id-allocation loop (the fuel ran out). -/
inductive OpOutcome (σ α : Type)
  | ok (s : σ) (a : α)
  | panicked
  | looping
deriving Repr, DecidableEq

/-- Thread an `enqueue_packet` call: continue with the extended buffer on
success, surface the panic of the source `expect` on failure. -/
def enqueueThen {σ α : Type} (r : Except WriteError Bytes)
    (k : Bytes → OpOutcome σ α) : OpOutcome σ α :=
  match r with
  | .error _ => .panicked
  | .ok b => k b

/-- The replace-or-append loop at the heart of `ClientState::suback`: if
an active subscription already has this filter, overwrite its qos and
channel in place; otherwise append a new entry at the end. -/
def replaceOrAppend {T : Type} (f : Str) (q : QoS) (ch : T) :
    List (Subscription T) → List (Subscription T)
  | [] => [⟨f, q, ch⟩]
  | sub :: rest =>
    if sub.filter = f then { sub with qos := q, channel := ch } :: rest
    else sub :: replaceOrAppend f q ch rest

/-- `ClientState::subscribe`: allocate a subscribe id, enqueue the
Subscribe packet, record the pending request with its response handle and
an `expires` stamp of `Instant::now()`. -/
def ClientState.subscribe {A B C D : Type} (s : ClientState A B C D)
    (filters : List (Str × QoS)) (channel : A) (response : C) (now : Nat) :
    OpOutcome (ClientState A B C D) Unit :=
  match s.generateSubscribeId with
  | none => .looping
  | some (id, s1) =>
    enqueueThen (Subscribe.serializeToBytes ⟨id, filters⟩ s1.outgoing) fun out =>
      .ok
        { s1 with
          outgoing := out
          subscribe_state :=
            mapInsert id
              ⟨filters.map (fun fq => ⟨fq.1, fq.2, channel⟩), response, now⟩
              s1.subscribe_state }
        ()

/-- `ClientState::suback`: validate the id and the result length, keep
the granted entries paired positionally with the requested filters, fold
them into the active subscriptions via replace-or-append, and hand the
caller the granted `(filter, qos)` pairs together with the stored
response handle. -/
def ClientState.suback {A B C D : Type} (s : ClientState A B C D) (ack : SubAck) :
    ClientState A B C D × Except StateError (C × List (Str × QoS)) :=
  match mapLookup ack.id s.subscribe_state with
  | none => (s, .error (.Unsolicited .SubAck))
  | some st =>
    let s1 := { s with subscribe_state := mapRemove ack.id s.subscribe_state }
    if ack.result.length ≠ st.filters.length then
      (s1, .error (.ProtocolError .subAckLengthMismatch))
    else
      let successful : List (Str × QoS × QoS × A) :=
        (ack.result.zip st.filters).filterMap fun rs =>
          rs.1.map fun rq => (rs.2.filter, rs.2.qos, rq, rs.2.channel)
      let active :=
        successful.foldl
          (fun acc e => replaceOrAppend e.1 e.2.2.1 e.2.2.2 acc)
          s1.active_subscriptions
      ({ s1 with active_subscriptions := active },
        .ok (st.response, successful.map fun e => (e.1, e.2.2.1)))

/-- `ClientState::unsubscribe`: allocate an unsubscribe id, enqueue the
Unsubscribe packet, record the pending request. -/
def ClientState.unsubscribe {A B C D : Type} (s : ClientState A B C D)
    (filters : List Str) (response : D) (now : Nat) :
    OpOutcome (ClientState A B C D) Unit :=
  match s.generateUnsubscribeId with
  | none => .looping
  | some (id, s1) =>
    enqueueThen (Unsubscribe.serializeToBytes ⟨id, filters⟩ s1.outgoing) fun out =>
      .ok
        { s1 with
          outgoing := out
          unsubscribe_state := mapInsert id ⟨filters, response, now⟩ s1.unsubscribe_state }
        ()

/-- `ClientState::publish`: QoS 0 enqueues the packet and returns the
response handle for immediate completion; QoS 1 and 2 allocate an id,
record `Ack` or `Rec` state, and enqueue the first (non-duplicate)
attempt. -/
def ClientState.publish {A B C D : Type} (s : ClientState A B C D)
    (topic : Str) (payload : Bytes) (qos : QoS) (retain : Bool) (response : B) :
    OpOutcome (ClientState A B C D) (Option B) :=
  match qos with
  | .AtMostOnce =>
    enqueueThen (Publish.serializeToBytes (.AtMostOnce retain topic payload) s.outgoing)
      fun out => .ok { s with outgoing := out } (some response)
  | .AtLeastOnce =>
    match s.generatePublishId with
    | none => .looping
    | some (id, s1) =>
      let s2 := { s1 with publish_state := mapInsert id (.Ack response) s1.publish_state }
      enqueueThen
        (Publish.serializeToBytes (.AtLeastOnce id retain false topic payload) s2.outgoing)
        fun out => .ok { s2 with outgoing := out } none
  | .ExactlyOnce =>
    match s.generatePublishId with
    | none => .looping
    | some (id, s1) =>
      let s2 := { s1 with publish_state := mapInsert id (.Rec response) s1.publish_state }
      enqueueThen
        (Publish.serializeToBytes (.ExactlyOnce id retain false topic payload) s2.outgoing)
        fun out => .ok { s2 with outgoing := out } none

/-- `ClientState::generate_resubscribe`: when there are active
subscriptions, drain them into a synthetic Subscribe carrying every active
filter with its cached qos; returns whether a packet was generated. -/
def ClientState.generateResubscribe {A B C D : Type} (s : ClientState A B C D)
    (response : C) (now : Nat) : OpOutcome (ClientState A B C D) Bool :=
  if s.active_subscriptions.isEmpty then .ok s false
  else
    let drained := s.active_subscriptions
    let s0 := { s with active_subscriptions := [] }
    match s0.generateSubscribeId with
    | none => .looping
    | some (id, s1) =>
      enqueueThen
        (Subscribe.serializeToBytes
          ⟨id, drained.map (fun sub => (sub.filter, sub.qos))⟩ s1.outgoing)
        fun out =>
          .ok
            { s1 with
              outgoing := out
              subscribe_state := mapInsert id ⟨drained, response, now⟩ s1.subscribe_state }
            true

/-- `ClientState::find_publish_channel`: score every active subscription
whose filter matches the topic and pick the maximum by
`Iterator::max_by_key`, for which the last of several equal maxima wins. -/
def maxByScore {T : Type} (l : List (Str × Nat × T)) : Option (Str × Nat × T) :=
  l.foldl
    (fun acc x =>
      match acc with
      | none => some x
      | some y => if x.2.1 ≥ y.2.1 then some x else some y)
    none

/-- `ClientState::find_publish_channel` proper. -/
def ClientState.findPublishChannel {A B C D : Type} (s : ClientState A B C D)
    (topic : Str) : Option A :=
  (maxByScore
    (s.active_subscriptions.filterMap fun sub =>
      (Filter.matchesTopic sub.filter topic).map
        fun m => (sub.filter, m.score, sub.channel))).map
    fun x => x.2.2

/-!  ## clients/tokio/task.rs: the connection driver

`process_packet` is embedded as a function from the state and the parsed
packet to an outcome: the updated state plus the messages handed to
subscription delivery channels, a `StateError`, or a panic.  Channel
`send` calls are modelled as always delivering (channel capacity and
closure are concurrency effects outside this embedding); the `panic!` and
`unimplemented!` calls of the source are the `panicked` outcome.
-/

/-- `packet::Packet`, the parsed packet sum type. -/
inductive Packet
  | Connect (c : Connect)
  | ConnAck (c : ConnAck)
  | Publish (p : Publish)
  | PubAck (id : Nat)
  | PubRec (id : Nat)
  | PubRel (id : Nat)
  | PubComp (id : Nat)
  | Subscribe (p : Subscribe)
  | SubAck (p : SubAck)
  | Unsubscribe (p : Unsubscribe)
  | UnsubAck (id : Nat)
  | PingReq
  | PingResp
  | Disconnect
deriving DecidableEq, Repr

/-- Outcome of `process_packet`: the new state and the messages delivered
to subscription channels, an error (the driver then tears the connection
down), or a panic of the task. -/
inductive ProcResult (σ A : Type)
  | ok (s : σ) (deliveries : List (A × Message))
  | err (s : σ) (e : StateError)
  | panicked
deriving Repr, DecidableEq

/-- `task::process_packet`. -/
def processPacket {A B C D : Type} (s : ClientState A B C D) (p : Packet) :
    ProcResult (ClientState A B C D) A :=
  match p with
  | .Publish (.AtMostOnce retain topic payload) =>
    match s.findPublishChannel topic with
    | none => .panicked
    | some ch => .ok s [(ch, ⟨topic, retain, payload⟩)]
  | .Publish (.AtLeastOnce id retain duplicate topic payload) =>
    if duplicate then .panicked
    else
      match s.findPublishChannel topic with
      | none => .panicked
      | some ch =>
        .ok { s with outgoing := idPacketBytes 0x40 id s.outgoing }
          [(ch, ⟨topic, retain, payload⟩)]
  | .Publish (.ExactlyOnce id retain duplicate topic payload) =>
    if duplicate then .panicked
    else
      .ok
        { s with
          incoming := mapInsert id ⟨topic, retain, payload⟩ s.incoming
          outgoing := idPacketBytes 0x50 id s.outgoing }
        []
  | .PubAck id =>
    match s.puback id with
    | (s1, .ok _) => .ok s1 []
    | (s1, .error e) => .err s1 e
  | .PubRec id =>
    match s.pubrec id with
    | (s1, .ok _) => .ok s1 []
    | (s1, .error e) => .err s1 e
  | .PubRel id =>
    match s.pubrel id with
    | (s1, .error _) => .err s1 (.ProtocolError .pubRelUnknownId)
    | (s1, .ok msg) =>
      match s1.findPublishChannel msg.topic with
      | none => .panicked
      | some ch =>
        .ok { s1 with outgoing := idPacketBytes 0x70 id s1.outgoing } [(ch, msg)]
  | .PubComp id =>
    match s.pubcomp id with
    | (s1, .ok _) => .ok s1 []
    | (s1, .error e) => .err s1 e
  | .SubAck ack =>
    match s.suback ack with
    | (s1, .ok _) => .ok s1 []
    | (s1, .error e) => .err s1 e
  | .UnsubAck id =>
    match s.unsuback id with
    | (s1, .ok _) => .ok s1 []
    | (s1, .error e) => .err s1 e
  | .PingResp =>
    match s.pingreq_state with
    | none => .err s (.Unsolicited .PingResp)
    | some _ => .ok { s with pingreq_state := none } []
  | .Connect _ | .ConnAck _ | .Subscribe _ | .Unsubscribe _ | .PingReq | .Disconnect =>
    .err s .InvalidPacket

/-- What `preconnect_task` decides after reading the first frame: either
it failed to parse a ConnAck (the error propagates and the connection is
torn down), or it resets the backoff and enters `connected_task` with the
session-present flag.  The ConnAck return code is not inspected
anywhere on this path. -/
inductive PreconnectFlow
  | proceedConnected (session_present : Bool)
deriving DecidableEq, Repr

/-- The post-read portion of `task::preconnect_task`: parse the frame
payload as a ConnAck and continue into the connected event loop. -/
def preconnectStep (frame : Frame) : Except ParseError PreconnectFlow :=
  match ConnAck.parse frame.payload with
  | .error e => .error e
  | .ok ca => .ok (.proceedConnected ca.session_present)

/-!  ## Concrete states and inputs used by the evaluation theorems -/

deriving instance DecidableEq for Except

deriving instance DecidableEq for ClientState

/-- A Connect packet with a will: topic is the one-byte string of the
character `t`, payload is the single byte of the character `x`. -/
def connectWithWill : Connect :=
  { protocol_name := protocolNameMQTT
    protocol_level := 4
    client_id := []
    keep_alive := 60
    clean_session := true
    will := some ⟨[0x74], [0x78], .AtMostOnce, false⟩
    credentials := none }

/-- A default state (concrete handle types) whose `incoming_qos2` table
already records a Publish under packet id 7, as after a first QoS 2
Publish with that id was processed. -/
def stateWithIncoming7 : ClientState Nat Unit Unit Unit :=
  { ClientState.default Nat Unit Unit Unit with
      incoming := [(7, ⟨[0x74], false, [0x78]⟩)] }

/-- A default state with an in-flight PingReq recorded at instant 10. -/
def stateWithPing10 : ClientState Nat Unit Unit Unit :=
  { ClientState.default Nat Unit Unit Unit with pingreq_state := some 10 }

/-- A default state with a pending subscribe request whose `expires`
stamp is the instant 10. -/
def stateWithSubscribe10 : ClientState Nat Unit Unit Unit :=
  { ClientState.default Nat Unit Unit Unit with
      subscribe_state := [(1, ⟨[⟨[0x61], .AtMostOnce, 0⟩], (), 10⟩)] }

/-- C1.  The serialize-then-parse round trip is claimed to be the
identity on every in-scope packet value; it fails on a Connect carrying
a will.  `Connect::payload_len` counts a 2-byte length prefix for the
will payload (declared remaining length 18 here), but
`Connect::serialize_to_bytes` writes the payload with `put_slice` and no
prefix (16 payload bytes on the wire), so parsing the produced frame
runs out of bytes and fails with `Incomplete` instead of returning the
original packet. -/
theorem connect_will_roundtrip_fails :
    Connect.serializeToBytes connectWithWill [] =
      .ok [0x10, 0x12, 0x00, 0x04, 0x4d, 0x51, 0x54, 0x54, 0x04, 0x06,
        0x00, 0x3c, 0x00, 0x00, 0x00, 0x01, 0x74, 0x78]
    ∧ connectWithWill.payloadLen = 18
    ∧ (Frame.parse [0x10, 0x12, 0x00, 0x04, 0x4d, 0x51, 0x54, 0x54, 0x04, 0x06,
        0x00, 0x3c, 0x00, 0x00, 0x00, 0x01, 0x74, 0x78]).map
        (fun fr => fr.payload.length) = .ok 16
    ∧ (Frame.parse [0x10, 0x12, 0x00, 0x04, 0x4d, 0x51, 0x54, 0x54, 0x04, 0x06,
        0x00, 0x3c, 0x00, 0x00, 0x00, 0x01, 0x74, 0x78]).map
        (fun fr => Connect.parse fr.payload) = .ok (.error .Incomplete) := by
  decide

/-- C5.  An incoming QoS 2 Publish with `duplicate = true` whose id is
already recorded in `incoming_qos2` is claimed to be handled as a repeat
without panicking; the driver instead hits the
`unimplemented!(\x22duplicate Publish packets are not yet handled\x22)` arm of
`process_packet` and panics.  Once the guard is never reached, the PubRel
path (second conjunct) does deliver the stored record. -/
theorem qos2_duplicate_publish_panics :
    processPacket stateWithIncoming7
        (.Publish (.ExactlyOnce 7 false true [0x74] [0x78])) = .panicked
    ∧ processPacket
        { stateWithIncoming7 with
            active_subscriptions := [⟨[hashByte], .ExactlyOnce, 5⟩] }
        (.PubRel 7) =
      .ok
        { stateWithIncoming7 with
            active_subscriptions := [⟨[hashByte], .ExactlyOnce, 5⟩]
            incoming := []
            outgoing := [0x70, 0x02, 0x00, 0x07] }
        [(5, ⟨[0x74], false, [0x78]⟩)] := by
  decide

/-- C6.  A ConnAck with nonzero return code (here 5, not authorized) is
claimed to abort the connect loop as a fatal error; `preconnect_task`
never inspects the code (the source carries a TODO there) and proceeds
straight into the connected event loop. -/
theorem preconnect_ignores_connack_code :
    ConnAck.parse [0x00, 0x05] = .ok ⟨false, 5⟩
    ∧ preconnectStep ⟨0x20, [0x00, 0x05]⟩ = .ok (.proceedConnected false) := by
  decide

/-- C7.  `ClientState::expired` is claimed to return true exactly when
some recorded deadline is at or before the current instant; the
comparisons in the source are inverted (`v > now`), so a deadline in the
future (10 > 0) reports expired and an exceeded deadline (10 < 20)
reports not expired, for both the PingReq record and the pending
subscribe table. -/
theorem expired_comparison_inverted :
    stateWithPing10.expired 0 = true
    ∧ stateWithPing10.expired 20 = false
    ∧ stateWithSubscribe10.expired 0 = true
    ∧ stateWithSubscribe10.expired 20 = false := by
  decide

/-!  ## Lemmas about the packet-id allocator -/

/-- The wrapped counter stays in `[1, 65535]`. -/
lemma wrappingAdd1_range {c : Nat} (h1 : 1 ≤ c) (h2 : c ≤ 65535) :
    1 ≤ wrappingAdd1 c ∧ wrappingAdd1 c ≤ 65535 := by
  unfold wrappingAdd1
  split <;> omega

/-- One wrapped increment, viewed through reduction modulo 65 535. -/
lemma wrappingAdd1_mod {c : Nat} (h1 : 1 ≤ c) (h2 : c ≤ 65535) :
    wrappingAdd1 c % 65535 = (c % 65535 + 1) % 65535 := by
  unfold wrappingAdd1
  split <;> omega

/-- Iterating the wrapped increment keeps the range and advances the
residue by the iteration count. -/
lemma wrappingAdd1_iterate {c : Nat} (h1 : 1 ≤ c) (h2 : c ≤ 65535) (k : Nat) :
    1 ≤ wrappingAdd1^[k] c ∧ wrappingAdd1^[k] c ≤ 65535
      ∧ wrappingAdd1^[k] c % 65535 = (c % 65535 + k) % 65535 := by
  induction k with
  | zero => simpa using ⟨h1, h2⟩
  | succ n ih =>
    obtain ⟨ha, hb, hc⟩ := ih
    rw [Function.iterate_succ_apply']
    refine ⟨(wrappingAdd1_range ha hb).1, (wrappingAdd1_range ha hb).2, ?_⟩
    rw [wrappingAdd1_mod ha hb, hc]
    omega

/-- Distinct iteration counts below 65 535 produce distinct counter
values (the wrapped increment is a cyclic permutation of `[1, 65535]`). -/
lemma wrappingAdd1_iterate_inj {c : Nat} (h1 : 1 ≤ c) (h2 : c ≤ 65535)
    {j k : Nat} (hj : j < 65535) (hk : k < 65535)
    (h : wrappingAdd1^[j + 1] c = wrappingAdd1^[k + 1] c) : j = k := by
  have hjm := (wrappingAdd1_iterate h1 h2 (j + 1)).2.2
  have hkm := (wrappingAdd1_iterate h1 h2 (k + 1)).2.2
  rw [h] at hjm
  omega

/-- Membership in the key set of an association-list map. -/
lemma mapContains_iff_mem {α : Type} (k : Nat) (m : List (Nat × α)) :
    mapContains k m = true ↔ k ∈ (m.map Prod.fst).toFinset := by
  induction m with
  | nil => simp [mapContains, mapLookup]
  | cons e rest ih =>
    obtain ⟨k2, v⟩ := e
    by_cases h : k2 = k
    · subst h
      simp [mapContains, mapLookup]
    · have hmem : k ∈ (List.map Prod.fst ((k2, v) :: rest)).toFinset
          ↔ k ∈ (List.map Prod.fst rest).toFinset := by
        simp only [List.map_cons, List.toFinset_cons, Finset.mem_insert]
        constructor
        · rintro (rfl | hm)
          · exact absurd rfl h
          · exact hm
        · exact Or.inr
      rw [hmem, ← ih]
      simp [mapContains, mapLookup, h]

/-- Pigeonhole step: when the table holds fewer than 65 535 keys, some
candidate produced within 65 535 wrapped increments is absent from it. -/
lemma exists_free_candidate {α : Type} {c : Nat} (h1 : 1 ≤ c) (h2 : c ≤ 65535)
    (m : List (Nat × α)) (hcard : (m.map Prod.fst).toFinset.card < 65535) :
    ∃ k, k < 65535 ∧ mapContains (wrappingAdd1^[k + 1] c) m = false := by
  by_contra hall
  push_neg at hall
  have hsub : (Finset.range 65535).image (fun k => wrappingAdd1^[k + 1] c)
      ⊆ (m.map Prod.fst).toFinset := by
    intro x hx
    obtain ⟨k, hk, rfl⟩ := Finset.mem_image.mp hx
    have := hall k (Finset.mem_range.mp hk)
    rw [← mapContains_iff_mem]
    revert this
    cases mapContains (wrappingAdd1^[k + 1] c) m <;> simp
  have hinj : Set.InjOn (fun k => wrappingAdd1^[k + 1] c) (Finset.range 65535) := by
    intro j hj k hk h
    exact wrappingAdd1_iterate_inj h1 h2
      (Finset.mem_range.mp (Finset.mem_coe.mp hj))
      (Finset.mem_range.mp (Finset.mem_coe.mp hk)) h
  have hcardim :
      ((Finset.range 65535).image (fun k => wrappingAdd1^[k + 1] c)).card = 65535 := by
    rw [Finset.card_image_of_injOn hinj, Finset.card_range]
  have := Finset.card_le_card hsub
  omega

/-- If some candidate within the fuel is absent from the table, the
allocation loop returns the first such candidate: an id that is not a
key of the table and is a positive iterate of the counter. -/
lemma generateIdLoop_ok {α : Type} (m : List (Nat × α)) :
    ∀ fuel c, (∃ k, k < fuel ∧ mapContains (wrappingAdd1^[k + 1] c) m = false) →
      ∃ id, generateIdLoop m fuel c = some id ∧ mapContains id m = false
        ∧ ∃ j, id = wrappingAdd1^[j + 1] c := by
  intro fuel
  induction fuel with
  | zero =>
    intro c h
    obtain ⟨k, hk, _⟩ := h
    omega
  | succ n ih =>
    intro c h
    by_cases hc : mapContains (wrappingAdd1 c) m = true
    · obtain ⟨k, hk, hfree⟩ := h
      match k with
      | 0 =>
        rw [Function.iterate_one] at hfree
        rw [hc] at hfree
        cases hfree
      | Nat.succ k2 =>
        have hshift : wrappingAdd1^[k2 + 1] (wrappingAdd1 c)
            = wrappingAdd1^[k2 + 1 + 1] c := by
          rw [← Function.iterate_succ_apply]
        obtain ⟨id, hgen, hfree2, j, hj⟩ :=
          ih (wrappingAdd1 c) ⟨k2, by omega, by rw [hshift]; exact hfree⟩
        refine ⟨id, ?_, hfree2, j + 1, ?_⟩
        · simp only [generateIdLoop, hc, if_true]
          exact hgen
        · rw [hj, ← Function.iterate_succ_apply]
    · refine ⟨wrappingAdd1 c, ?_, by revert hc; cases mapContains (wrappingAdd1 c) m <;> simp, 0, by simp⟩
      simp only [generateIdLoop]
      rw [if_neg (by revert hc; cases mapContains (wrappingAdd1 c) m <;> simp)]

/-- With the counter in range and the table not saturated, the shared
allocation loop terminates within its fuel and yields a fresh id in
`[1, 65535]`. -/
lemma generateId_ok {α : Type} (m : List (Nat × α)) (c : Nat)
    (h1 : 1 ≤ c) (h2 : c ≤ 65535)
    (hcard : (m.map Prod.fst).toFinset.card < 65535) :
    ∃ id, generateIdLoop m idFuel c = some id
      ∧ 1 ≤ id ∧ id ≤ 65535 ∧ mapContains id m = false := by
  obtain ⟨k, hk, hfree⟩ := exists_free_candidate h1 h2 m hcard
  obtain ⟨id, hgen, hfree2, j, hj⟩ :=
    generateIdLoop_ok m idFuel c ⟨k, by unfold idFuel; omega, hfree⟩
  obtain ⟨ha, hb, _⟩ := wrappingAdd1_iterate h1 h2 (j + 1)
  rw [← hj] at ha hb
  exact ⟨id, hgen, ha, hb, hfree2⟩

/-- C4.  Each of the three per-class packet-id counters starts at 65 535
(`WrappingNonZeroU16::MAX`); each bump wraps 65 535 to 1 and never
produces 0; and whenever the class's in-flight table holds fewer than
65 535 keys, the allocator terminates with an id that is not currently
in that table — so only a saturated table can make allocation fail. -/
theorem packet_id_allocation_fresh :
    (∀ A B C D : Type,
      (ClientState.default A B C D).publish_packet_id = 65535
      ∧ (ClientState.default A B C D).subscribe_packet_id = 65535
      ∧ (ClientState.default A B C D).unsubscribe_packet_id = 65535)
    ∧ wrappingAdd1 65535 = 1
    ∧ (∀ c, 1 ≤ c → c < 65535 → wrappingAdd1 c = c + 1)
    ∧ (∀ c, 1 ≤ c → c ≤ 65535 → 1 ≤ wrappingAdd1 c ∧ wrappingAdd1 c ≤ 65535)
    ∧ (∀ (A B C D : Type) (s : ClientState A B C D),
        1 ≤ s.publish_packet_id → s.publish_packet_id ≤ 65535 →
        (s.publish_state.map Prod.fst).toFinset.card < 65535 →
        ∃ id s1, s.generatePublishId = some (id, s1)
          ∧ 1 ≤ id ∧ id ≤ 65535 ∧ mapContains id s.publish_state = false
          ∧ s1.publish_packet_id = id)
    ∧ (∀ (A B C D : Type) (s : ClientState A B C D),
        1 ≤ s.subscribe_packet_id → s.subscribe_packet_id ≤ 65535 →
        (s.subscribe_state.map Prod.fst).toFinset.card < 65535 →
        ∃ id s1, s.generateSubscribeId = some (id, s1)
          ∧ 1 ≤ id ∧ id ≤ 65535 ∧ mapContains id s.subscribe_state = false
          ∧ s1.subscribe_packet_id = id)
    ∧ (∀ (A B C D : Type) (s : ClientState A B C D),
        1 ≤ s.unsubscribe_packet_id → s.unsubscribe_packet_id ≤ 65535 →
        (s.unsubscribe_state.map Prod.fst).toFinset.card < 65535 →
        ∃ id s1, s.generateUnsubscribeId = some (id, s1)
          ∧ 1 ≤ id ∧ id ≤ 65535 ∧ mapContains id s.unsubscribe_state = false
          ∧ s1.unsubscribe_packet_id = id) := by
  refine ⟨fun A B C D => ⟨rfl, rfl, rfl⟩, rfl, ?_, ?_, ?_, ?_, ?_⟩
  · intro c h1 h2
    unfold wrappingAdd1
    split <;> omega
  · exact fun c h1 h2 => wrappingAdd1_range h1 h2
  · intro A B C D s h1 h2 hcard
    obtain ⟨id, hgen, ha, hb, hfree⟩ := generateId_ok s.publish_state s.publish_packet_id h1 h2 hcard
    exact ⟨id, _, by rw [ClientState.generatePublishId, hgen]; rfl, ha, hb, hfree, rfl⟩
  · intro A B C D s h1 h2 hcard
    obtain ⟨id, hgen, ha, hb, hfree⟩ := generateId_ok s.subscribe_state s.subscribe_packet_id h1 h2 hcard
    exact ⟨id, _, by rw [ClientState.generateSubscribeId, hgen]; rfl, ha, hb, hfree, rfl⟩
  · intro A B C D s h1 h2 hcard
    obtain ⟨id, hgen, ha, hb, hfree⟩ := generateId_ok s.unsubscribe_state s.unsubscribe_packet_id h1 h2 hcard
    exact ⟨id, _, by rw [ClientState.generateUnsubscribeId, hgen]; rfl, ha, hb, hfree, rfl⟩

/-- C4 witness: the allocator theorem applied at a concrete state whose
publish table holds id 1 with the counter at 65 535; the first wrapped
candidate 1 is occupied, so the loop steps again and hands out a fresh
id. -/
theorem packet_id_allocation_fresh_witness :
    ∃ id s1,
      ({ ClientState.default Nat Unit Unit Unit with
          publish_state := [(1, .Ack ())] } : ClientState Nat Unit Unit Unit).generatePublishId
        = some (id, s1)
      ∧ 1 ≤ id ∧ id ≤ 65535
      ∧ mapContains id
          ({ ClientState.default Nat Unit Unit Unit with
              publish_state := [(1, .Ack ())] } : ClientState Nat Unit Unit Unit).publish_state = false
      ∧ s1.publish_packet_id = id := by
  exact packet_id_allocation_fresh.2.2.2.2.1 Nat Unit Unit Unit
    { ClientState.default Nat Unit Unit Unit with publish_state := [(1, .Ack ())] }
    (by decide) (by decide) (by simp)

/-!  ## Lemmas about the association-list maps -/

/-- Looking up the key just inserted. -/
lemma mapLookup_insert_self {α : Type} (k : Nat) (v : α) (m : List (Nat × α)) :
    mapLookup k (mapInsert k v m) = some v := by
  simp [mapInsert, mapLookup]

/-- Looking up the key just removed. -/
lemma mapLookup_remove_self {α : Type} (k : Nat) (m : List (Nat × α)) :
    mapLookup k (mapRemove k m) = none := by
  induction m with
  | nil => rfl
  | cons e rest ih =>
    by_cases h : e.1 = k
    · simpa [mapRemove, h] using ih
    · simpa [mapRemove, mapLookup, h] using ih

/-- C9.  The outgoing QoS 2 handshake: while an id is in `Rec`
(awaiting PubRec) state, a PubRec moves it to `Comp` (awaiting PubComp)
and enqueues a serialized PubRel with the same id; the subsequent
PubComp removes the entry and returns the recorded caller completion.
A PubComp for an id not in `Comp` state (unknown id, or still awaiting
PubRec) yields `Unsolicited(PubComp)`, and a PubRec for an id not in
`Rec` state yields `Unsolicited(PubRec)`. -/
theorem qos2_outgoing_handshake {A B C D : Type} (s : ClientState A B C D)
    (id : Nat) (r : B) (hrec : mapLookup id s.publish_state = some (.Rec r)) :
    ((s.pubrec id).2 = .ok ()
      ∧ mapLookup id (s.pubrec id).1.publish_state = some (.Comp r)
      ∧ (s.pubrec id).1.outgoing = idPacketBytes 0x62 id s.outgoing
      ∧ ((s.pubrec id).1.pubcomp id).2 = .ok r
      ∧ mapLookup id ((s.pubrec id).1.pubcomp id).1.publish_state = none)
    ∧ (∀ s2 : ClientState A B C D,
        (∀ r2 : B, mapLookup id s2.publish_state ≠ some (.Comp r2)) →
        (s2.pubcomp id).2 = .error (.Unsolicited .PubComp))
    ∧ (∀ s2 : ClientState A B C D,
        (∀ r2 : B, mapLookup id s2.publish_state ≠ some (.Rec r2)) →
        (s2.pubrec id).2 = .error (.Unsolicited .PubRec)) := by
  refine ⟨?_, ?_, ?_⟩
  · have hstep : s.pubrec id =
        ({ s with
            publish_state := mapInsert id (.Comp r) (mapRemove id s.publish_state)
            outgoing := idPacketBytes 0x62 id s.outgoing }, .ok ()) := by
      rw [ClientState.pubrec, hrec]
    rw [hstep]
    refine ⟨rfl, mapLookup_insert_self .., rfl, ?_, ?_⟩
    · rw [ClientState.pubcomp]
      simp only [mapLookup_insert_self]
    · rw [ClientState.pubcomp]
      simp only [mapLookup_insert_self]
      simp [mapLookup_remove_self]
  · intro s2 hnot
    rw [ClientState.pubcomp]
    match h : mapLookup id s2.publish_state with
    | none => rfl
    | some (.Ack r2) => rfl
    | some (.Rec r2) => rfl
    | some (.Comp r2) => exact absurd h (hnot r2)
  · intro s2 hnot
    rw [ClientState.pubrec]
    match h : mapLookup id s2.publish_state with
    | none => rfl
    | some (.Ack r2) => rfl
    | some (.Comp r2) => rfl
    | some (.Rec r2) => exact absurd h (hnot r2)

/-- C9 witness: the handshake theorem applied at a concrete state with
one outgoing QoS 2 publish (id 3) awaiting its PubRec, caller handle 42. -/
theorem qos2_outgoing_handshake_witness :
    (let s : ClientState Unit Nat Unit Unit :=
      { ClientState.default Unit Nat Unit Unit with publish_state := [(3, .Rec 42)] }
     ((s.pubrec 3).2 = .ok ()
      ∧ mapLookup 3 (s.pubrec 3).1.publish_state = some (.Comp 42)
      ∧ (s.pubrec 3).1.outgoing = idPacketBytes 0x62 3 s.outgoing
      ∧ ((s.pubrec 3).1.pubcomp 3).2 = .ok 42
      ∧ mapLookup 3 ((s.pubrec 3).1.pubcomp 3).1.publish_state = none)
     ∧ (∀ s2 : ClientState Unit Nat Unit Unit,
        (∀ r2 : Nat, mapLookup 3 s2.publish_state ≠ some (.Comp r2)) →
        (s2.pubcomp 3).2 = .error (.Unsolicited .PubComp))
     ∧ (∀ s2 : ClientState Unit Nat Unit Unit,
        (∀ r2 : Nat, mapLookup 3 s2.publish_state ≠ some (.Rec r2)) →
        (s2.pubrec 3).2 = .error (.Unsolicited .PubRec))) := by
  exact qos2_outgoing_handshake
    { ClientState.default Unit Nat Unit Unit with publish_state := [(3, .Rec 42)] }
    3 42 (by decide)

/-!  ## Lemmas about suback's replace-or-append update -/

/-- Specification-side description of the filters a SubAck adds: walking
the granted filters in order, a filter already active (or already added)
adds nothing, a previously-absent filter is appended once. -/
def appendedFilters (existing : List Str) : List Str → List Str
  | [] => []
  | f :: fs =>
    if f ∈ existing then appendedFilters existing fs
    else f :: appendedFilters (existing ++ [f]) fs

/-- `replaceOrAppend` leaves the filter list unchanged when the filter is
already present and appends it at the end otherwise. -/
lemma replaceOrAppend_map_filter {T : Type} (f : Str) (q : QoS) (ch : T)
    (l : List (Subscription T)) :
    (replaceOrAppend f q ch l).map Subscription.filter =
      if f ∈ l.map Subscription.filter then l.map Subscription.filter
      else l.map Subscription.filter ++ [f] := by
  induction l with
  | nil => simp [replaceOrAppend]
  | cons sub rest ih =>
    by_cases h : sub.filter = f
    · simp [replaceOrAppend, h]
    · have hne : f ≠ sub.filter := fun hx => h hx.symm
      simp only [replaceOrAppend, if_neg h, List.map_cons, ih, List.mem_cons]
      by_cases hmem : f ∈ rest.map Subscription.filter
      · simp [hmem, hne]
      · simp [hmem, hne]

/-- The fold of `replaceOrAppend` over the granted entries, at the level
of filter lists: old filters first, then the previously-absent granted
filters in order of first occurrence. -/
lemma foldl_replaceOrAppend_map_filter {T : Type}
    (gr : List (Str × QoS × QoS × T)) :
    ∀ l : List (Subscription T),
      ((gr.foldl (fun acc e => replaceOrAppend e.1 e.2.2.1 e.2.2.2 acc) l).map
          Subscription.filter) =
        l.map Subscription.filter
          ++ appendedFilters (l.map Subscription.filter) (gr.map Prod.fst) := by
  induction gr with
  | nil => intro l; simp [appendedFilters]
  | cons e rest ih =>
    intro l
    simp only [List.foldl_cons, List.map_cons]
    rw [ih, replaceOrAppend_map_filter]
    by_cases hmem : e.1 ∈ l.map Subscription.filter
    · simp [hmem, appendedFilters]
    · simp [hmem, appendedFilters]

/-- Distinctness of the filter list survives one `replaceOrAppend`. -/
lemma replaceOrAppend_nodup {T : Type} {f : Str} {q : QoS} {ch : T}
    {l : List (Subscription T)} (h : (l.map Subscription.filter).Nodup) :
    ((replaceOrAppend f q ch l).map Subscription.filter).Nodup := by
  rw [replaceOrAppend_map_filter]
  by_cases hmem : f ∈ l.map Subscription.filter
  · simpa [hmem] using h
  · simp only [if_neg hmem]
    rw [List.nodup_append]
    refine ⟨h, List.nodup_singleton f, ?_⟩
    intro a ha hb
    rw [List.mem_singleton] at hb
    subst hb
    exact hmem ha

/-- Distinctness of the filter list survives the whole granted fold. -/
lemma foldl_replaceOrAppend_nodup {T : Type}
    (gr : List (Str × QoS × QoS × T)) :
    ∀ {l : List (Subscription T)}, (l.map Subscription.filter).Nodup →
      (((gr.foldl (fun acc e => replaceOrAppend e.1 e.2.2.1 e.2.2.2 acc) l).map
          Subscription.filter)).Nodup := by
  induction gr with
  | nil => intro l h; simpa using h
  | cons e rest ih =>
    intro l h
    simpa using ih (replaceOrAppend_nodup h)

/-- An untouched subscription (its filter is not among the granted ones)
survives `replaceOrAppend` with all its fields. -/
lemma replaceOrAppend_mem_of_ne {T : Type} {sub : Subscription T}
    {f : Str} {q : QoS} {ch : T} {l : List (Subscription T)}
    (hmem : sub ∈ l) (hne : sub.filter ≠ f) :
    sub ∈ replaceOrAppend f q ch l := by
  induction l with
  | nil => cases hmem
  | cons e rest ih =>
    by_cases h : e.filter = f
    · rcases List.mem_cons.mp hmem with rfl | hm
      · exact absurd h hne
      · simp [replaceOrAppend, h, hm]
    · rcases List.mem_cons.mp hmem with rfl | hm
      · simp [replaceOrAppend, h]
      · simp only [replaceOrAppend, if_neg h, List.mem_cons]
        exact Or.inr (ih hm)

/-- An untouched subscription survives the whole granted fold. -/
lemma foldl_replaceOrAppend_mem {T : Type}
    (gr : List (Str × QoS × QoS × T)) :
    ∀ {l : List (Subscription T)} {sub : Subscription T}, sub ∈ l →
      sub.filter ∉ gr.map Prod.fst →
      sub ∈ gr.foldl (fun acc e => replaceOrAppend e.1 e.2.2.1 e.2.2.2 acc) l := by
  induction gr with
  | nil => intro l sub h _; simpa using h
  | cons e rest ih =>
    intro l sub hmem hne
    simp only [List.map_cons, List.mem_cons] at hne
    push_neg at hne
    exact ih (replaceOrAppend_mem_of_ne hmem hne.1) hne.2

/-- Every granted filter ends up in the final filter list. -/
lemma mem_appendedFilters_total (f : Str) :
    ∀ (granted existing : List Str), f ∈ granted →
      f ∈ existing ++ appendedFilters existing granted := by
  intro granted
  induction granted with
  | nil => intro existing h; cases h
  | cons g rest ih =>
    intro existing h
    rcases List.mem_cons.mp h with rfl | hm
    · by_cases hg : f ∈ existing
      · simp [appendedFilters, hg]
      · simp [appendedFilters, hg]
    · by_cases hg : g ∈ existing
      · simpa [appendedFilters, hg] using ih existing hm
      · have := ih (existing ++ [g]) hm
        simp only [appendedFilters, if_neg hg]
        simp only [List.mem_append, List.mem_singleton, List.mem_cons] at this ⊢
        tauto

/-- Specification-side positional pairing of SubAck results with the
requested subscriptions: failures (`none`) are dropped, a granted result
keeps the requested filter with the granted qos. -/
def grantedPairs {T : Type} : List (Option QoS) → List (Subscription T) → List (Str × QoS)
  | some q :: rs, sub :: subs => (sub.filter, q) :: grantedPairs rs subs
  | none :: rs, _ :: subs => grantedPairs rs subs
  | _, _ => []

/-- The successful-filters list built inside `suback`, projected to what
the caller receives, equals the positional pairing. -/
lemma successful_map_eq {T : Type} :
    ∀ (rs : List (Option QoS)) (subs : List (Subscription T)),
      (((rs.zip subs).filterMap fun p =>
          p.1.map fun rq => (p.2.filter, p.2.qos, rq, p.2.channel)).map
        fun e => (e.1, e.2.2.1)) = grantedPairs rs subs := by
  intro rs
  induction rs with
  | nil => intro subs; simp [grantedPairs]
  | cons r rest ih =>
    intro subs
    match subs with
    | [] => simp [grantedPairs]
    | sub :: subs2 =>
      match r with
      | some q => simp [grantedPairs, ih]
      | none => simp [grantedPairs, ih]

/-- The successful-filters list, projected to its filters, equals the
filters of the positional pairing. -/
lemma successful_map_fst_eq {T : Type}
    (rs : List (Option QoS)) (subs : List (Subscription T)) :
    (((rs.zip subs).filterMap fun p =>
        p.1.map fun rq => (p.2.filter, p.2.qos, rq, p.2.channel)).map Prod.fst) =
      (grantedPairs rs subs).map Prod.fst := by
  have h := congrArg (List.map Prod.fst) (successful_map_eq (T := T) rs subs)
  simpa [List.map_map, Function.comp] using h

/-- Specification-side positional pairing that also keeps the requested
delivery channel: the granted entries `(filter, granted_qos, channel)`
in SubAck order. -/
def grantedEntries {T : Type} : List (Option QoS) → List (Subscription T) → List (Str × QoS × T)
  | some q :: rs, sub :: subs => (sub.filter, q, sub.channel) :: grantedEntries rs subs
  | none :: rs, _ :: subs => grantedEntries rs subs
  | _, _ => []

/-- The successful-filters list, projected to filter, granted qos and
channel, equals the positional pairing with channels. -/
lemma successful_entries_eq {T : Type} :
    ∀ (rs : List (Option QoS)) (subs : List (Subscription T)),
      (((rs.zip subs).filterMap fun p =>
          p.1.map fun rq => (p.2.filter, p.2.qos, rq, p.2.channel)).map
        fun e => (e.1, e.2.2.1, e.2.2.2)) = grantedEntries rs subs := by
  intro rs
  induction rs with
  | nil => intro subs; simp [grantedEntries]
  | cons r rest ih =>
    intro subs
    match subs with
    | [] => simp [grantedEntries]
    | sub :: subs2 =>
      match r with
      | some q => simp [grantedEntries, ih]
      | none => simp [grantedEntries, ih]

/-- The last granted `(qos, channel)` recorded for a filter; entries
later in the SubAck take precedence, matching the left-to-right
replacement fold. -/
def lastGrantFor {T : Type} (f : Str) : List (Str × QoS × T) → Option (QoS × T)
  | [] => none
  | e :: rest =>
    match lastGrantFor f rest with
    | some v => some v
    | none => if e.1 = f then some e.2 else none

/-- A filter with no recorded grant does not occur among the entries. -/
lemma lastGrantFor_none_not_mem {T : Type} (f : Str) :
    ∀ l : List (Str × QoS × T), lastGrantFor f l = none → f ∉ l.map Prod.fst := by
  intro l
  induction l with
  | nil => intro _; simp
  | cons e rest ih =>
    intro h
    simp only [lastGrantFor] at h
    cases hrest : lastGrantFor f rest with
    | some v => rw [hrest] at h; cases h
    | none =>
      rw [hrest] at h
      by_cases he : e.1 = f
      · rw [if_pos he] at h
        cases h
      · intro hmem
        simp only [List.map_cons, List.mem_cons] at hmem
        rcases hmem with heq | hm
        · exact he heq.symm
        · exact ih hrest hm

/-- The entry `replaceOrAppend` writes (the replaced-in-place
subscription or the appended one) is in its output with exactly the
given qos and channel. -/
lemma replaceOrAppend_self_mem {T : Type} (f : Str) (q : QoS) (ch : T) :
    ∀ l : List (Subscription T),
      (⟨f, q, ch⟩ : Subscription T) ∈ replaceOrAppend f q ch l := by
  intro l
  induction l with
  | nil => simp [replaceOrAppend]
  | cons sub rest ih =>
    by_cases h : sub.filter = f
    · simp only [replaceOrAppend, if_pos h, List.mem_cons]
      left
      obtain ⟨fl, qs, c⟩ := sub
      have h2 : fl = f := h
      rw [h2]
    · simp only [replaceOrAppend, if_neg h, List.mem_cons]
      exact Or.inr ih

/-- Folding the granted entries over the active subscriptions writes,
for every granted filter, an entry carrying the qos and channel of its
last grant. -/
lemma foldl_replaceOrAppend_lastGrant {T : Type} :
    ∀ (gr : List (Str × QoS × QoS × T)) (l : List (Subscription T))
      (f : Str) (q : QoS) (ch : T),
      lastGrantFor f (gr.map fun e => (e.1, e.2.2.1, e.2.2.2)) = some (q, ch) →
      (⟨f, q, ch⟩ : Subscription T) ∈
        gr.foldl (fun acc e => replaceOrAppend e.1 e.2.2.1 e.2.2.2 acc) l := by
  intro gr
  induction gr with
  | nil => intro l f q ch h; cases h
  | cons e rest ih =>
    intro l f q ch h
    simp only [List.map_cons, lastGrantFor] at h
    rw [List.foldl_cons]
    cases hrest : lastGrantFor f (rest.map fun e => (e.1, e.2.2.1, e.2.2.2)) with
    | some v =>
      rw [hrest] at h
      cases h
      exact ih _ f q ch hrest
    | none =>
      rw [hrest] at h
      by_cases he : e.1 = f
      · rw [if_pos he] at h
        simp only [Option.some.injEq, Prod.mk.injEq] at h
        obtain ⟨rfl, rfl⟩ := h
        refine foldl_replaceOrAppend_mem rest ?_ ?_
        · rw [← he]
          exact replaceOrAppend_self_mem ..
        · intro hmem
          apply lastGrantFor_none_not_mem f _ hrest
          rw [List.map_map]
          simpa using hmem
      · rw [if_neg he] at h
        cases h

/-- C8.  `ClientState::suback`: a SubAck with an unknown id yields
`Unsolicited(SubAck)` and leaves the state unchanged; with a known id but
a result count different from the requested filter count it yields
`ProtocolError`; otherwise the results are paired positionally with the
requested filters, only granted (non-0x80) entries are kept, the caller
receives exactly the granted `(filter, granted_qos)` pairs, the final
active filter list is the old one plus the previously-absent granted
filters, every granted filter is active afterwards, subscriptions whose
filter was not granted survive untouched, the pending request is
consumed, and each granted filter ends up with an active entry whose qos
and channel are exactly those of its (last) grant - the replacement
really overwrites the qos and channel, and an appended entry carries the
granted qos, uniquely so whenever the active filters were distinct. -/
theorem suback_grants {A B C D : Type} (s : ClientState A B C D) (ack : SubAck) :
    (mapLookup ack.id s.subscribe_state = none →
      s.suback ack = (s, .error (.Unsolicited .SubAck)))
    ∧ (∀ st, mapLookup ack.id s.subscribe_state = some st →
        ack.result.length ≠ st.filters.length →
        (s.suback ack).2 = .error (.ProtocolError .subAckLengthMismatch))
    ∧ (∀ st, mapLookup ack.id s.subscribe_state = some st →
        ack.result.length = st.filters.length →
        (s.suback ack).2 = .ok (st.response, grantedPairs ack.result st.filters)
        ∧ ((s.suback ack).1.active_subscriptions.map Subscription.filter
            = s.active_subscriptions.map Subscription.filter
              ++ appendedFilters (s.active_subscriptions.map Subscription.filter)
                  ((grantedPairs ack.result st.filters).map Prod.fst))
        ∧ (∀ fq ∈ grantedPairs ack.result st.filters,
            fq.1 ∈ (s.suback ack).1.active_subscriptions.map Subscription.filter)
        ∧ (∀ sub ∈ s.active_subscriptions,
            sub.filter ∉ (grantedPairs ack.result st.filters).map Prod.fst →
            sub ∈ (s.suback ack).1.active_subscriptions)
        ∧ mapLookup ack.id (s.suback ack).1.subscribe_state = none
        ∧ (∀ f q ch,
            lastGrantFor f (grantedEntries ack.result st.filters) = some (q, ch) →
            (⟨f, q, ch⟩ : Subscription A) ∈ (s.suback ack).1.active_subscriptions)
        ∧ ((s.active_subscriptions.map Subscription.filter).Nodup →
            ∀ f q ch,
            lastGrantFor f (grantedEntries ack.result st.filters) = some (q, ch) →
            ∀ sub ∈ (s.suback ack).1.active_subscriptions, sub.filter = f →
              sub = ⟨f, q, ch⟩)) := by
  refine ⟨?_, ?_, ?_⟩
  · intro hnone
    rw [ClientState.suback, hnone]
  · intro st hst hlen
    rw [ClientState.suback, hst]
    simp only [if_pos hlen]
  · intro st hst hlen
    have hcond : ¬ ack.result.length ≠ st.filters.length := fun h => h hlen
    have hsub : s.suback ack =
        ({ s with
            subscribe_state := mapRemove ack.id s.subscribe_state
            active_subscriptions :=
              ((ack.result.zip st.filters).filterMap fun rs =>
                  rs.1.map fun rq => (rs.2.filter, rs.2.qos, rq, rs.2.channel)).foldl
                (fun acc e => replaceOrAppend e.1 e.2.2.1 e.2.2.2 acc)
                s.active_subscriptions },
          .ok (st.response,
            ((ack.result.zip st.filters).filterMap fun rs =>
                rs.1.map fun rq => (rs.2.filter, rs.2.qos, rq, rs.2.channel)).map
              fun e => (e.1, e.2.2.1))) := by
      rw [ClientState.suback, hst]
      simp only [if_neg hcond]
    rw [hsub]
    simp only
    refine ⟨by rw [successful_map_eq], ?_, ?_, ?_, mapLookup_remove_self .., ?_, ?_⟩
    · rw [foldl_replaceOrAppend_map_filter, successful_map_fst_eq]
    · intro fq hfq
      rw [foldl_replaceOrAppend_map_filter, successful_map_fst_eq]
      exact mem_appendedFilters_total fq.1 _ _ (List.mem_map_of_mem Prod.fst hfq)
    · intro sub hmem hnot
      refine foldl_replaceOrAppend_mem _ hmem ?_
      rw [successful_map_fst_eq]
      exact hnot
    · intro f q ch hlast
      rw [← successful_entries_eq] at hlast
      exact foldl_replaceOrAppend_lastGrant _ _ f q ch hlast
    · intro hnd f q ch hlast sub hsubmem hfeq
      rw [← successful_entries_eq] at hlast
      have hvalmem := foldl_replaceOrAppend_lastGrant _
        s.active_subscriptions f q ch hlast
      have hnodup2 := foldl_replaceOrAppend_nodup
        ((ack.result.zip st.filters).filterMap fun rs =>
          rs.1.map fun rq => (rs.2.filter, rs.2.qos, rq, rs.2.channel)) hnd
      exact List.inj_on_of_nodup_map hnodup2 hsubmem hvalmem hfeq

/-- C8 witness: the suback theorem applied at a concrete state with one
pending subscribe (id 1, two requested filters over channel 9),
receiving a SubAck that grants the first at qos 1 and fails the second;
the filter of the first request was already active at qos 0 on channel 7
and is not duplicated, and its entry now carries the granted qos 1 and
the new channel 9. -/
theorem suback_grants_witness :
    ((({ ClientState.default Nat Unit Unit Unit with
        active_subscriptions := [⟨[0x61], .AtMostOnce, 7⟩]
        subscribe_state :=
          [(1, ⟨[⟨[0x61], .AtMostOnce, 9⟩, ⟨[0x62], .AtMostOnce, 9⟩], (), 0⟩)] } :
          ClientState Nat Unit Unit Unit).suback
        ⟨1, [some .AtLeastOnce, none]⟩).2 =
      .ok ((), [([0x61], .AtLeastOnce)]))
    ∧ ((({ ClientState.default Nat Unit Unit Unit with
        active_subscriptions := [⟨[0x61], .AtMostOnce, 7⟩]
        subscribe_state :=
          [(1, ⟨[⟨[0x61], .AtMostOnce, 9⟩, ⟨[0x62], .AtMostOnce, 9⟩], (), 0⟩)] } :
          ClientState Nat Unit Unit Unit).suback
        ⟨1, [some .AtLeastOnce, none]⟩).1.active_subscriptions.map
          Subscription.filter =
      [[0x61]] ++ appendedFilters [[0x61]] [[0x61]])
    ∧ ((⟨[0x61], .AtLeastOnce, 9⟩ : Subscription Nat) ∈
      (({ ClientState.default Nat Unit Unit Unit with
        active_subscriptions := [⟨[0x61], .AtMostOnce, 7⟩]
        subscribe_state :=
          [(1, ⟨[⟨[0x61], .AtMostOnce, 9⟩, ⟨[0x62], .AtMostOnce, 9⟩], (), 0⟩)] } :
          ClientState Nat Unit Unit Unit).suback
        ⟨1, [some .AtLeastOnce, none]⟩).1.active_subscriptions) := by
  have h := (suback_grants
    ({ ClientState.default Nat Unit Unit Unit with
        active_subscriptions := [⟨[0x61], .AtMostOnce, 7⟩]
        subscribe_state :=
          [(1, ⟨[⟨[0x61], .AtMostOnce, 9⟩, ⟨[0x62], .AtMostOnce, 9⟩], (), 0⟩)] } :
          ClientState Nat Unit Unit Unit)
    ⟨1, [some .AtLeastOnce, none]⟩).2.2
    ⟨[⟨[0x61], .AtMostOnce, 9⟩, ⟨[0x62], .AtMostOnce, 9⟩], (), 0⟩
    (by decide) (by decide)
  exact ⟨by rw [h.1]; rfl, by rw [h.2.1]; rfl,
    h.2.2.2.2.2.1 [0x61] .AtLeastOnce 9 (by decide)⟩

/-- The C10 invariant: no two active subscriptions share a filter. -/
def subFiltersNodup {A B C D : Type} (s : ClientState A B C D) : Prop :=
  (s.active_subscriptions.map Subscription.filter).Nodup

/-- The state component of a successful id allocation differs from the
input only in the subscribe counter. -/
lemma generateSubscribeId_state {A B C D : Type} {s s2 : ClientState A B C D} {id : Nat}
    (h : s.generateSubscribeId = some (id, s2)) :
    s2 = { s with subscribe_packet_id := id } := by
  unfold ClientState.generateSubscribeId at h
  cases hloop : generateIdLoop s.subscribe_state idFuel s.subscribe_packet_id with
  | none => rw [hloop] at h; cases h
  | some id0 =>
    rw [hloop] at h
    simp only [Option.map_some'] at h
    cases h
    rfl

/-- The state component of a successful publish-id allocation differs
from the input only in the publish counter. -/
lemma generatePublishId_state {A B C D : Type} {s s2 : ClientState A B C D} {id : Nat}
    (h : s.generatePublishId = some (id, s2)) :
    s2 = { s with publish_packet_id := id } := by
  unfold ClientState.generatePublishId at h
  cases hloop : generateIdLoop s.publish_state idFuel s.publish_packet_id with
  | none => rw [hloop] at h; cases h
  | some id0 =>
    rw [hloop] at h
    simp only [Option.map_some'] at h
    cases h
    rfl

/-- The state component of a successful unsubscribe-id allocation differs
from the input only in the unsubscribe counter. -/
lemma generateUnsubscribeId_state {A B C D : Type} {s s2 : ClientState A B C D} {id : Nat}
    (h : s.generateUnsubscribeId = some (id, s2)) :
    s2 = { s with unsubscribe_packet_id := id } := by
  unfold ClientState.generateUnsubscribeId at h
  cases hloop : generateIdLoop s.unsubscribe_state idFuel s.unsubscribe_packet_id with
  | none => rw [hloop] at h; cases h
  | some id0 =>
    rw [hloop] at h
    simp only [Option.map_some'] at h
    cases h
    rfl


/-- `subscribe` never touches the active subscriptions. -/
lemma subscribe_active_unchanged {A B C D : Type} {s s1 : ClientState A B C D}
    {fl : List (Str × QoS)} {ch : A} {resp : C} {now : Nat} {u : Unit}
    (h : s.subscribe fl ch resp now = .ok s1 u) :
    s1.active_subscriptions = s.active_subscriptions := by
  unfold ClientState.subscribe at h
  cases hg : s.generateSubscribeId with
  | none => rw [hg] at h; cases h
  | some p =>
    obtain ⟨id, s2⟩ := p
    cases hser : Subscribe.serializeToBytes ⟨id, fl⟩ s2.outgoing with
    | error e =>
      simp only [hg, enqueueThen, hser] at h
      cases h
    | ok b =>
      simp only [hg, enqueueThen, hser] at h
      cases h
      rw [generateSubscribeId_state hg]

/-- `unsubscribe` never touches the active subscriptions. -/
lemma unsubscribe_active_unchanged {A B C D : Type} {s s1 : ClientState A B C D}
    {fl : List Str} {resp : D} {now : Nat} {u : Unit}
    (h : s.unsubscribe fl resp now = .ok s1 u) :
    s1.active_subscriptions = s.active_subscriptions := by
  unfold ClientState.unsubscribe at h
  cases hg : s.generateUnsubscribeId with
  | none => rw [hg] at h; cases h
  | some p =>
    obtain ⟨id, s2⟩ := p
    cases hser : Unsubscribe.serializeToBytes ⟨id, fl⟩ s2.outgoing with
    | error e =>
      simp only [hg, enqueueThen, hser] at h
      cases h
    | ok b =>
      simp only [hg, enqueueThen, hser] at h
      cases h
      rw [generateUnsubscribeId_state hg]

/-- `publish` never touches the active subscriptions. -/
lemma publish_active_unchanged {A B C D : Type} {s s1 : ClientState A B C D}
    {topic : Str} {payload : Bytes} {qos : QoS} {retain : Bool} {resp : B} {a : Option B}
    (h : s.publish topic payload qos retain resp = .ok s1 a) :
    s1.active_subscriptions = s.active_subscriptions := by
  unfold ClientState.publish at h
  match qos with
  | .AtMostOnce =>
    cases hser : Publish.serializeToBytes (.AtMostOnce retain topic payload) s.outgoing with
    | error e =>
      simp only [enqueueThen, hser] at h
      cases h
    | ok b =>
      simp only [enqueueThen, hser] at h
      cases h
      rfl
  | .AtLeastOnce =>
    cases hg : s.generatePublishId with
    | none => rw [hg] at h; cases h
    | some p =>
      obtain ⟨id, s2⟩ := p
      cases hser : Publish.serializeToBytes (.AtLeastOnce id retain false topic payload)
          ({ s2 with publish_state := mapInsert id (.Ack resp) s2.publish_state } :
            ClientState A B C D).outgoing with
      | error e =>
        simp only [hg, enqueueThen, hser] at h
        cases h
      | ok b =>
        simp only [hg, enqueueThen, hser] at h
        cases h
        rw [generatePublishId_state hg]
  | .ExactlyOnce =>
    cases hg : s.generatePublishId with
    | none => rw [hg] at h; cases h
    | some p =>
      obtain ⟨id, s2⟩ := p
      cases hser : Publish.serializeToBytes (.ExactlyOnce id retain false topic payload)
          ({ s2 with publish_state := mapInsert id (.Rec resp) s2.publish_state } :
            ClientState A B C D).outgoing with
      | error e =>
        simp only [hg, enqueueThen, hser] at h
        cases h
      | ok b =>
        simp only [hg, enqueueThen, hser] at h
        cases h
        rw [generatePublishId_state hg]

/-- `generate_resubscribe` either leaves the active subscriptions alone
(nothing to resubscribe) or drains them to the empty list. -/
lemma generateResubscribe_active {A B C D : Type} {s s1 : ClientState A B C D}
    {resp : C} {now : Nat} {b : Bool}
    (h : s.generateResubscribe resp now = .ok s1 b) :
    s1.active_subscriptions = s.active_subscriptions ∨ s1.active_subscriptions = [] := by
  unfold ClientState.generateResubscribe at h
  by_cases hemp : s.active_subscriptions.isEmpty
  · rw [if_pos hemp] at h
    cases h
    exact Or.inl rfl
  · rw [if_neg hemp] at h
    cases hg : ClientState.generateSubscribeId
        { s with active_subscriptions := [] } with
    | none =>
      simp only [hg] at h
      cases h
    | some p =>
      obtain ⟨id, s2⟩ := p
      cases hser : Subscribe.serializeToBytes
          ⟨id, s.active_subscriptions.map fun sub => (sub.filter, sub.qos)⟩
          s2.outgoing with
      | error e =>
        simp only [hg, enqueueThen, hser] at h
        cases h
      | ok bts =>
        simp only [hg, enqueueThen, hser] at h
        cases h
        right
        rw [generateSubscribeId_state hg]

/-- C10.  No two active subscriptions ever share a filter: `suback`
folds granted entries with replace-or-append (so a repeated filter,
including one repeated inside a single SubAck, updates in place),
`unsuback` removes every entry whose filter is listed, and every other
state-machine operation either leaves the active subscriptions untouched
or empties them, so distinctness of the active filters is preserved by
every operation. -/
theorem active_filters_unique :
    (∀ (A B C D : Type) (s : ClientState A B C D) (ack : SubAck),
      subFiltersNodup s → subFiltersNodup (s.suback ack).1)
    ∧ (∀ (A B C D : Type) (s : ClientState A B C D) (id : Nat),
      subFiltersNodup s → subFiltersNodup (s.unsuback id).1)
    ∧ (∀ (A B C D : Type) (s : ClientState A B C D) (id : Nat) st,
      mapLookup id s.unsubscribe_state = some st →
      ∀ f ∈ st.filters,
        f ∉ (s.unsuback id).1.active_subscriptions.map Subscription.filter)
    ∧ (∀ (A B C D : Type) (s s1 : ClientState A B C D) fl (ch : A) (resp : C) now u,
      s.subscribe fl ch resp now = .ok s1 u → subFiltersNodup s → subFiltersNodup s1)
    ∧ (∀ (A B C D : Type) (s s1 : ClientState A B C D) fl (resp : D) now u,
      s.unsubscribe fl resp now = .ok s1 u → subFiltersNodup s → subFiltersNodup s1)
    ∧ (∀ (A B C D : Type) (s s1 : ClientState A B C D) topic payload qos retain
        (resp : B) a,
      s.publish topic payload qos retain resp = .ok s1 a →
      subFiltersNodup s → subFiltersNodup s1)
    ∧ (∀ (A B C D : Type) (s s1 : ClientState A B C D) (resp : C) now b,
      s.generateResubscribe resp now = .ok s1 b → subFiltersNodup s → subFiltersNodup s1)
    ∧ (∀ (A B C D : Type) (s : ClientState A B C D) (id : Nat),
      (s.puback id).1.active_subscriptions = s.active_subscriptions
      ∧ (s.pubrec id).1.active_subscriptions = s.active_subscriptions
      ∧ (s.pubcomp id).1.active_subscriptions = s.active_subscriptions
      ∧ (s.pubrel id).1.active_subscriptions = s.active_subscriptions) := by
  refine ⟨?_, ?_, ?_, ?_, ?_, ?_, ?_, ?_⟩
  · intro A B C D s ack hnd
    unfold subFiltersNodup at *
    cases hlk : mapLookup ack.id s.subscribe_state with
    | none => simp only [ClientState.suback, hlk]; exact hnd
    | some st =>
      by_cases hlen : ack.result.length ≠ st.filters.length
      · simp only [ClientState.suback, hlk, if_pos hlen]
        exact hnd
      · simp only [ClientState.suback, hlk, if_neg hlen]
        exact foldl_replaceOrAppend_nodup _ hnd
  · intro A B C D s id hnd
    unfold subFiltersNodup at *
    cases hlk : mapLookup id s.unsubscribe_state with
    | none => simp only [ClientState.unsuback, hlk]; exact hnd
    | some st =>
      simp only [ClientState.unsuback, hlk]
      exact hnd.sublist (List.Sublist.map Subscription.filter (List.filter_sublist _))
  · intro A B C D s id st hlk f hf
    simp only [ClientState.unsuback, hlk]
    intro hmem
    obtain ⟨sub, hsub, hfeq⟩ := List.mem_map.mp hmem
    have hp := (List.mem_filter.mp hsub).2
    rw [hfeq] at hp
    simp only [decide_eq_true_eq] at hp
    exact hp (by simpa [List.contains, List.elem_iff] using hf)
  · intro A B C D s s1 fl ch resp now u h hnd
    unfold subFiltersNodup at *
    rw [subscribe_active_unchanged h]
    exact hnd
  · intro A B C D s s1 fl resp now u h hnd
    unfold subFiltersNodup at *
    rw [unsubscribe_active_unchanged h]
    exact hnd
  · intro A B C D s s1 topic payload qos retain resp a h hnd
    unfold subFiltersNodup at *
    rw [publish_active_unchanged h]
    exact hnd
  · intro A B C D s s1 resp now b h hnd
    unfold subFiltersNodup at *
    rcases generateResubscribe_active h with he | he <;> rw [he]
    · exact hnd
    · exact List.nodup_nil
  · intro A B C D s id
    refine ⟨?_, ?_, ?_, ?_⟩
    · unfold ClientState.puback
      cases hlk : mapLookup id s.publish_state with
      | none => rfl
      | some ps => cases ps <;> rfl
    · unfold ClientState.pubrec
      cases hlk : mapLookup id s.publish_state with
      | none => rfl
      | some ps => cases ps <;> rfl
    · unfold ClientState.pubcomp
      cases hlk : mapLookup id s.publish_state with
      | none => rfl
      | some ps => cases ps <;> rfl
    · unfold ClientState.pubrel
      cases hlk : mapLookup id s.incoming with
      | none => rfl
      | some msg => rfl

/-- C10 witness: a SubAck granting the same filter twice in one packet
still yields a single active entry, applied at a concrete state. -/
theorem active_filters_unique_witness :
    subFiltersNodup
      ((({ ClientState.default Nat Unit Unit Unit with
          subscribe_state :=
            [(1, ⟨[⟨[0x61], .AtMostOnce, 9⟩, ⟨[0x61], .AtMostOnce, 9⟩], (), 0⟩)] } :
            ClientState Nat Unit Unit Unit).suback
        ⟨1, [some .AtMostOnce, some .AtLeastOnce]⟩).1) := by
  exact active_filters_unique.1 Nat Unit Unit Unit
    ({ ClientState.default Nat Unit Unit Unit with
        subscribe_state :=
          [(1, ⟨[⟨[0x61], .AtMostOnce, 9⟩, ⟨[0x61], .AtMostOnce, 9⟩], (), 0⟩)] } :
        ClientState Nat Unit Unit Unit)
    ⟨1, [some .AtMostOnce, some .AtLeastOnce]⟩
    (by unfold subFiltersNodup ClientState.default; simp)

/-- The fold inside `max_by_key`: whatever it returns came from the list
or the initial accumulator, and its key bounds every key seen. -/
lemma maxByScore_foldl_spec {T : Type} :
    ∀ (l : List (Str × Nat × T)) (acc : Option (Str × Nat × T)) (x : Str × Nat × T),
      l.foldl
        (fun acc y =>
          match acc with
          | none => some y
          | some z => if y.2.1 ≥ z.2.1 then some y else some z) acc = some x →
      (acc = some x ∨ x ∈ l)
        ∧ (∀ y ∈ l, y.2.1 ≤ x.2.1)
        ∧ (∀ y, acc = some y → y.2.1 ≤ x.2.1) := by
  intro l
  induction l with
  | nil =>
    intro acc x h
    rw [List.foldl_nil] at h
    refine ⟨Or.inl h, by simp, ?_⟩
    intro y hy
    rw [h] at hy
    cases hy
    exact le_refl _
  | cons z rest ih =>
    intro acc x h
    rw [List.foldl_cons] at h
    match acc with
    | none =>
      simp only at h
      obtain ⟨hmem, hbound, haccb⟩ := ih (some z) x h
      have hz : z.2.1 ≤ x.2.1 := haccb z rfl
      refine ⟨?_, ?_, fun y hy => by cases hy⟩
      · rcases hmem with hm | hm
        · cases hm
          exact Or.inr (List.mem_cons_self ..)
        · exact Or.inr (List.mem_cons_of_mem z hm)
      · intro y hy
        rcases List.mem_cons.mp hy with rfl | hyr
        · exact hz
        · exact hbound y hyr
    | some w =>
      simp only at h
      by_cases hge : z.2.1 ≥ w.2.1
      · rw [if_pos hge] at h
        obtain ⟨hmem, hbound, haccb⟩ := ih (some z) x h
        have hz : z.2.1 ≤ x.2.1 := haccb z rfl
        refine ⟨?_, ?_, ?_⟩
        · rcases hmem with hm | hm
          · cases hm
            exact Or.inr (List.mem_cons_self ..)
          · exact Or.inr (List.mem_cons_of_mem z hm)
        · intro y hy
          rcases List.mem_cons.mp hy with rfl | hyr
          · exact hz
          · exact hbound y hyr
        · intro y hy
          cases hy
          omega
      · rw [if_neg hge] at h
        obtain ⟨hmem, hbound, haccb⟩ := ih (some w) x h
        have hw : w.2.1 ≤ x.2.1 := haccb w rfl
        refine ⟨?_, ?_, ?_⟩
        · rcases hmem with hm | hm
          · exact Or.inl hm
          · exact Or.inr (List.mem_cons_of_mem z hm)
        · intro y hy
          rcases List.mem_cons.mp hy with rfl | hyr
          · omega
          · exact hbound y hyr
        · intro y hy
          cases hy
          exact hw

/-- C3.  The specificity score is `exact*100 + wildcard*10 +
multi_wildcard`; `find_publish_channel` returns the channel of an active
subscription whose match profile attains the maximum score among all
matching subscriptions; in particular, with active subscriptions `a/+`
(score 110) and `a/#` (score 101), a Publish on topic `a/x` is routed to
the channel of the `a/+` subscription. -/
theorem find_publish_channel_max_score :
    (∀ m : Matches, m.score = m.exact * 100 + m.wildcard * 10 + m.multi_wildcard)
    ∧ (∀ (A B C D : Type) (s : ClientState A B C D) (topic : Str) (ch : A),
        s.findPublishChannel topic = some ch →
        ∃ sub ∈ s.active_subscriptions, ∃ m,
          Filter.matchesTopic sub.filter topic = some m
          ∧ ch = sub.channel
          ∧ ∀ sub2 ∈ s.active_subscriptions, ∀ m2,
              Filter.matchesTopic sub2.filter topic = some m2 → m2.score ≤ m.score)
    ∧ ((Filter.matchesTopic [0x61, 0x2f, 0x2b] [0x61, 0x2f, 0x78]).map Matches.score
        = some 110)
    ∧ ((Filter.matchesTopic [0x61, 0x2f, 0x23] [0x61, 0x2f, 0x78]).map Matches.score
        = some 101)
    ∧ (({ ClientState.default Nat Unit Unit Unit with
          active_subscriptions :=
            [⟨[0x61, 0x2f, 0x2b], .AtMostOnce, 0⟩, ⟨[0x61, 0x2f, 0x23], .AtMostOnce, 1⟩] } :
          ClientState Nat Unit Unit Unit).findPublishChannel [0x61, 0x2f, 0x78]
        = some 0) := by
  refine ⟨fun m => rfl, ?_, by decide, by decide, by decide⟩
  intro A B C D s topic ch h
  unfold ClientState.findPublishChannel at h
  cases hmx : maxByScore
      (s.active_subscriptions.filterMap fun sub =>
        (Filter.matchesTopic sub.filter topic).map
          fun m => (sub.filter, m.score, sub.channel)) with
  | none => rw [hmx] at h; cases h
  | some x =>
    rw [hmx] at h
    simp only [Option.map_some'] at h
    cases h
    unfold maxByScore at hmx
    obtain ⟨hmem, hbound, _⟩ := maxByScore_foldl_spec _ none x hmx
    rcases hmem with hm | hm
    · cases hm
    · obtain ⟨sub, hsub, hx⟩ := List.mem_filterMap.mp hm
      cases hmt : Filter.matchesTopic sub.filter topic with
      | none => rw [hmt] at hx; cases hx
      | some m =>
        rw [hmt] at hx
        simp only [Option.map_some'] at hx
        cases hx
        refine ⟨sub, hsub, m, hmt, rfl, ?_⟩
        intro sub2 hsub2 m2 hmt2
        have hcand : (sub2.filter, m2.score, sub2.channel) ∈
            s.active_subscriptions.filterMap fun sub =>
              (Filter.matchesTopic sub.filter topic).map
                fun m => (sub.filter, m.score, sub.channel) := by
          refine List.mem_filterMap.mpr ⟨sub2, hsub2, ?_⟩
          rw [hmt2]
          rfl
        exact hbound _ hcand

/-- C3 witness: the maximum-score property applied at the concrete
two-subscription state of the claim, where the match on `a/+` scores 110
and wins over `a/#` at 101. -/
theorem find_publish_channel_max_score_witness :
    ∃ sub ∈ ({ ClientState.default Nat Unit Unit Unit with
        active_subscriptions :=
          [⟨[0x61, 0x2f, 0x2b], .AtMostOnce, 0⟩, ⟨[0x61, 0x2f, 0x23], .AtMostOnce, 1⟩] } :
        ClientState Nat Unit Unit Unit).active_subscriptions, ∃ m,
      Filter.matchesTopic sub.filter [0x61, 0x2f, 0x78] = some m
      ∧ (0 : Nat) = sub.channel
      ∧ ∀ sub2 ∈ ({ ClientState.default Nat Unit Unit Unit with
          active_subscriptions :=
            [⟨[0x61, 0x2f, 0x2b], .AtMostOnce, 0⟩, ⟨[0x61, 0x2f, 0x23], .AtMostOnce, 1⟩] } :
          ClientState Nat Unit Unit Unit).active_subscriptions, ∀ m2,
          Filter.matchesTopic sub2.filter [0x61, 0x2f, 0x78] = some m2 →
            m2.score ≤ m.score := by
  exact find_publish_channel_max_score.2.1 Nat Unit Unit Unit
    ({ ClientState.default Nat Unit Unit Unit with
        active_subscriptions :=
          [⟨[0x61, 0x2f, 0x2b], .AtMostOnce, 0⟩, ⟨[0x61, 0x2f, 0x23], .AtMostOnce, 1⟩] } :
        ClientState Nat Unit Unit Unit)
    [0x61, 0x2f, 0x78] 0 (by decide)

/-!  ## The level-walking specification of `matches_topic` (C2) -/

/-- The walk described by the specification: walking filter and topic
levels simultaneously, a literal filter level must equal the
corresponding topic level, `+` consumes exactly one topic level, a
terminal `#` consumes all remaining topic levels and at least one, and
both sequences must be exhausted together. -/
inductive Walk : List Str → List Str → Prop
  | nil : Walk [] []
  | multi (ts : List Str) : ts ≠ [] → Walk [[hashByte]] ts
  | single {fs ts : List Str} (t : Str) : Walk fs ts → Walk ([plusByte] :: fs) (t :: ts)
  | lit {fs ts : List Str} (l : Str) : l ≠ [hashByte] → l ≠ [plusByte] →
      Walk fs ts → Walk (l :: fs) (l :: ts)

/-- The multi-level wildcard level appears only as the final level. -/
def hashTerminal : List Str → Prop
  | [] => True
  | [_] => True
  | l :: rest => l ≠ [hashByte] ∧ hashTerminal rest

/-- Inversion for `hashTerminal` at a cons cell. -/
lemma hashTerminal_cons {l : Str} {rest : List Str}
    (h : hashTerminal (l :: rest)) :
    rest = [] ∨ (l ≠ [hashByte] ∧ hashTerminal rest) := by
  match rest with
  | [] => exact Or.inl rfl
  | r :: rest2 => exact Or.inr h

/-- A filter starting with the multi-level wildcard has nothing after
it. -/
lemma hashTerminal_hash_head {rest : List Str}
    (h : hashTerminal ([hashByte] :: rest)) : rest = [] := by
  rcases hashTerminal_cons h with h2 | h2
  · exact h2
  · exact absurd rfl h2.1

/-- `Walk` from an exhausted filter requires an exhausted topic. -/
lemma walk_nil_iff (ts : List Str) : Walk [] ts ↔ ts = [] := by
  constructor
  · intro w
    cases w
    rfl
  · rintro rfl
    exact Walk.nil

/-- `Walk` from a lone `#` level requires at least one topic level. -/
lemma walk_multi_iff (ts : List Str) : Walk [[hashByte]] ts ↔ ts ≠ [] := by
  constructor
  · intro w
    cases w with
    | multi _ hne => exact hne
    | lit _ hne _ _ => exact absurd rfl hne
  · exact Walk.multi ts

/-- `Walk` from a `+` level consumes exactly one topic level. -/
lemma walk_single_iff (fs ts : List Str) :
    Walk ([plusByte] :: fs) ts ↔ ∃ t ts2, ts = t :: ts2 ∧ Walk fs ts2 := by
  constructor
  · intro w
    cases w with
    | single t w2 => exact ⟨t, _, rfl, w2⟩
    | lit _ _ hnp _ => exact absurd rfl hnp
  · rintro ⟨t, ts2, rfl, w⟩
    exact Walk.single t w

/-- `Walk` from a literal level requires the equal topic level. -/
lemma walk_lit_iff (l : Str) (fs ts : List Str)
    (hnh : l ≠ [hashByte]) (hnp : l ≠ [plusByte]) :
    Walk (l :: fs) ts ↔ ∃ ts2, ts = l :: ts2 ∧ Walk fs ts2 := by
  constructor
  · intro w
    cases w with
    | multi _ hne =>
      exact absurd rfl hnh
    | single t w2 => exact absurd rfl hnp
    | lit _ _ _ w2 => exact ⟨_, rfl, w2⟩
  · rintro ⟨ts2, rfl, w⟩
    exact Walk.lit l hnh hnp w

/-- The matching loop succeeds exactly on the walks of the
specification, for filters whose `#` level is terminal; the accumulated
profile does not affect success. -/
lemma matchLevels_isSome_iff :
    ∀ fs : List Str, hashTerminal fs → ∀ (ts : List Str) (acc : Matches),
      ((matchLevels acc fs ts).isSome = true ↔ Walk fs ts) := by
  intro fs
  induction fs with
  | nil =>
    intro _ ts acc
    rw [walk_nil_iff]
    match ts with
    | [] => simp [matchLevels]
    | t :: ts2 => simp [matchLevels]
  | cons f fs ih =>
    intro hht ts acc
    by_cases hf : f = [hashByte]
    · subst hf
      have hfs : fs = [] := hashTerminal_hash_head hht
      subst hfs
      rw [walk_multi_iff]
      match ts with
      | [] => simp [matchLevels]
      | t :: ts2 => simp [matchLevels]
    · have hht2 : hashTerminal fs := by
        rcases hashTerminal_cons hht with rfl | h2
        · trivial
        · exact h2.2
      by_cases hp : f = [plusByte]
      · subst hp
        rw [walk_single_iff]
        match ts with
        | [] =>
          simp only [matchLevels, if_neg hf, eq_self_iff_true, if_true]
          simp
        | t :: ts2 =>
          simp only [matchLevels, if_neg hf, eq_self_iff_true, if_true]
          rw [ih hht2 ts2 _]
          constructor
          · intro w
            exact ⟨t, ts2, rfl, w⟩
          · rintro ⟨t2, ts3, heq, w⟩
            cases heq
            exact w
      · rw [walk_lit_iff f fs ts hf hp]
        match ts with
        | [] =>
          simp only [matchLevels, if_neg hf, if_neg hp]
          simp
        | t :: ts2 =>
          simp only [matchLevels, if_neg hf, if_neg hp]
          by_cases ht : t = f
          · subst ht
            rw [if_pos rfl, ih hht2 ts2 _]
            constructor
            · intro w
              exact ⟨ts2, rfl, w⟩
            · rintro ⟨ts3, heq, w⟩
              cases heq
              exact w
          · rw [if_neg ht]
            simp only [Option.isSome_none, Bool.false_eq_true, false_iff]
            rintro ⟨ts3, heq, w⟩
            cases heq
            exact ht rfl

/-- The running `total_levels` after folding positions of an enumerated
suffix: the previous value if the suffix is empty, the last position
otherwise. -/
lemma enumFrom_posFoldl :
    ∀ (rest : List Str) (m t0 : Nat),
      (List.enumFrom m rest).foldl (fun _ pr => pr.1) t0 =
        if rest.isEmpty then t0 else m + rest.length - 1 := by
  intro rest
  induction rest with
  | nil => intro m t0; rfl
  | cons x xs ih =>
    intro m t0
    simp only [List.enumFrom, List.foldl_cons, List.isEmpty_cons, if_false,
      Bool.false_eq_true, List.length_cons]
    rw [ih (m + 1) m]
    match xs with
    | [] => simp
    | y :: ys => simp only [List.isEmpty_cons, if_false, Bool.false_eq_true,
        List.length_cons]; omega

/-- Once a multi-level wildcard has been recorded, the scan accepts only
hash-free levels, keeps the recorded position, and ends with
`total_levels` equal to the last position scanned. -/
lemma scanLevels_some :
    ∀ (pairs : List (Nat × Str)) (p t0 : Nat) (mpf : Option Nat) (total : Nat),
      Filter.scanLevels pairs (some p) t0 = .ok (mpf, total) →
      mpf = some p ∧ total = pairs.foldl (fun _ pr => pr.1) t0
        ∧ ∀ pr ∈ pairs, pr.2.contains hashByte = false := by
  intro pairs
  induction pairs with
  | nil =>
    intro p t0 mpf total h
    cases h
    exact ⟨rfl, rfl, by simp⟩
  | cons pr rest ih =>
    intro p t0 mpf total h
    obtain ⟨pos, l⟩ := pr
    by_cases hbad : (l.any fun b => b = plusByte ∨ b = hashByte) ∧ l.length > 1
    · simp only [Filter.scanLevels, if_pos hbad] at h
      cases h
    · simp only [Filter.scanLevels, if_neg hbad] at h
      by_cases hch : l.contains hashByte
      · rw [if_pos (by exact ⟨hch, rfl⟩)] at h
        cases h
      · rw [if_neg (by rintro ⟨hc, _⟩; exact hch hc), if_neg hch] at h
        obtain ⟨h1, h2, h3⟩ := ih p pos mpf total h
        refine ⟨h1, by simpa using h2, ?_⟩
        intro pr2 hpr2
        rcases List.mem_cons.mp hpr2 with rfl | hm
        · simpa using hch
        · exact h3 pr2 hm

/-- A successful scan whose recorded wildcard position (if any) equals
the final `total_levels` forces the multi-level wildcard to be terminal. -/
lemma scanLevels_hashTerminal :
    ∀ (ls : List Str) (n t0 : Nat) (mpf : Option Nat) (total : Nat),
      Filter.scanLevels (List.enumFrom n ls) none t0 = .ok (mpf, total) →
      (∀ p, mpf = some p → p = total) →
      hashTerminal ls := by
  intro ls
  induction ls with
  | nil => intro n t0 mpf total h hp; trivial
  | cons l rest ih =>
    intro n t0 mpf total h hp
    simp only [List.enumFrom] at h
    by_cases hbad : (l.any fun b => b = plusByte ∨ b = hashByte) ∧ l.length > 1
    · simp only [Filter.scanLevels, if_pos hbad] at h
      cases h
    · simp only [Filter.scanLevels, if_neg hbad] at h
      rw [if_neg (by rintro ⟨_, hs⟩; simp at hs)] at h
      by_cases hch : l.contains hashByte
      · rw [if_pos hch] at h
        obtain ⟨h1, h2, _⟩ := scanLevels_some _ n n mpf total h
        have hnt : n = total := hp n h1
        rw [enumFrom_posFoldl] at h2
        match hrest : rest with
        | [] => trivial
        | r :: rest2 =>
          exfalso
          simp only [List.isEmpty_cons, Bool.false_eq_true, if_false,
            List.length_cons] at h2
          omega
      · rw [if_neg hch] at h
        have hht := ih (n + 1) n mpf total h hp
        have hne : l ≠ [hashByte] := by
          rintro rfl
          exact hch (by decide)
        match rest with
        | [] => trivial
        | r :: rest2 => exact ⟨hne, hht⟩

/-- A filter accepted by `Filter::new` has its `#` level terminal. -/
lemma filterNew_hashTerminal (f : Str) (h : Filter.new f = .ok ()) :
    hashTerminal (splitLevels f) := by
  unfold Filter.new at h
  by_cases hemp : f.isEmpty
  · rw [if_pos hemp] at h
    cases h
  · rw [if_neg hemp] at h
    by_cases hlong : f.length > 0xffff
    · rw [if_pos hlong] at h
      cases h
    · rw [if_neg hlong] at h
      cases hscan : Filter.scanLevels (splitLevels f).enum none 0 with
      | error e => rw [hscan] at h; cases h
      | ok pr =>
        obtain ⟨mp, total⟩ := pr
        rw [hscan] at h
        have hscan2 : Filter.scanLevels (List.enumFrom 0 (splitLevels f)) none 0 =
            .ok (mp, total) := hscan
        match mp with
        | none =>
          exact scanLevels_hashTerminal _ 0 0 none total hscan2 (by intro p hp; cases hp)
        | some p =>
          have h2 : (if p ≠ total then
              (Except.error InvalidFilter.NonTerminalMultiLevelWildcard :
                Except InvalidFilter Unit)
            else .ok ()) = .ok () := h
          by_cases hpt : p ≠ total
          · rw [if_pos hpt] at h2
            cases h2
          · refine scanLevels_hashTerminal _ 0 0 (some p) total hscan2 ?_
            intro q hq
            cases hq
            exact not_ne_iff.mp hpt

/-- C2.  For every filter accepted by `Filter::new` and topic accepted
by `Topic::new`, `Filter::matches_topic` returns `Some` profile exactly
when the simultaneous level walk of the specification succeeds: literals
must be equal, `+` consumes exactly one level, a terminal `#` consumes
the whole non-empty remainder of the topic, and both level sequences
exhaust together. -/
theorem matches_topic_iff_walk (f t : Str)
    (hf : Filter.new f = .ok ()) (ht : Topic.new t = .ok ()) :
    ((Filter.matchesTopic f t).isSome = true ↔ Walk (splitLevels f) (splitLevels t)) := by
  unfold Filter.matchesTopic
  exact matchLevels_isSome_iff _ (filterNew_hashTerminal f hf) _ _

/-- C2 witness: the equivalence applied to the filter `a/#` and the
topic `a/b`, giving the concrete walk. -/
theorem matches_topic_iff_walk_witness :
    Walk (splitLevels [0x61, 0x2f, 0x23]) (splitLevels [0x61, 0x2f, 0x62]) := by
  exact (matches_topic_iff_walk [0x61, 0x2f, 0x23] [0x61, 0x2f, 0x62]
    (by decide) (by decide)).mp (by decide)
